import Mathlib

/-!
Incremental export of Oozie workflow records (`oozie_dump.go`).

A shallow embedding of the program together with the parts of the Go standard
library it relies on (`time`, `regexp`, `strings`), followed by the properties
of the watermark-based incremental pass.

Conventions of the embedding:

* a Go `string` is a Lean `String`; library routines work on its characters;
* a `time.Time` is an instant (seconds and nanoseconds since
  `0001-01-01T00:00:00Z`) together with the zone offset used for display;
* the file system and the clock are explicit: the outcome of every system
  call a pass makes is read from an `Env`, and the calls themselves are
  recorded, in order, in a trace of `Event`s.
-/

namespace OozieDump

/-! ## Package `time` -/

/-- A `time.Time`: `sec` seconds and `nsec` nanoseconds after
`0001-01-01T00:00:00Z`, displayed at `zone` minutes east of UTC.  Every
location this program meets is UTC or a fixed `±hh:mm` zone. -/
structure Time where
  sec : Int
  nsec : Nat
  zone : Int
deriving DecidableEq

/-- The zero value `time.Time{}`: January 1, year 1, 00:00:00 UTC. -/
def Time.zero : Time := ⟨0, 0, 0⟩

/-- Go `t.Before(u)`: the instant `t` is strictly earlier than the instant `u`. -/
def Time.Before (t u : Time) : Bool :=
  decide (t.sec < u.sec ∨ (t.sec = u.sec ∧ t.nsec < u.nsec))

/-- Go `t.In(time.UTC)`: same instant, displayed in UTC. -/
def Time.InUTC (t : Time) : Time := { t with zone := 0 }

/-- Go `isLeap(year)` of the proleptic Gregorian calendar. -/
def isLeap (year : Int) : Bool :=
  decide (year % 4 = 0 ∧ (year % 100 ≠ 0 ∨ year % 400 = 0))

/-- Go `daysBefore[m]`: days in a non-leap year before month `m + 1`. -/
def daysBefore (m : Nat) : Int :=
  match m with
  | 0 => 0
  | 1 => 31
  | 2 => 59
  | 3 => 90
  | 4 => 120
  | 5 => 151
  | 6 => 181
  | 7 => 212
  | 8 => 243
  | 9 => 273
  | 10 => 304
  | 11 => 334
  | _ => 365

/-- Go `daysIn(month, year)`. -/
def daysIn (month : Nat) (year : Int) : Int :=
  if month = 2 ∧ isLeap year = true then 29
  else daysBefore month - daysBefore (month - 1)

/-- Go `daysSinceEpoch(year)`, counted from January 1 of year 1: the number of
days before January 1 of `year`. -/
def daysSinceEpoch (year : Int) : Int :=
  let y := year - 1
  let n400 := y / 400
  let y := y - 400 * n400
  let d := 146097 * n400
  let n100 := y / 100
  let y := y - 100 * n100
  let d := d + 36524 * n100
  let n4 := y / 4
  let y := y - 4 * n4
  let d := d + 1461 * n4
  d + 365 * y

/-- Year and day within the year (from 0) of a day number; `days` counts days
from January 1 of year 1.  First half of `absDate`. -/
def yearDay (days : Int) : Int × Int :=
  -- Account for 400 year cycles.
  let n := days / 146097
  let y := 400 * n
  let d := days - 146097 * n
  -- Cut off 100-year cycles; the last cycle has a missing leap year.
  let n := d / 36524
  let n := n - n / 4
  let y := y + 100 * n
  let d := d - 36524 * n
  -- Cut off 4-year cycles.
  let n := d / 1461
  let y := y + 4 * n
  let d := d - 1461 * n
  -- Cut off years within a 4-year cycle; the last year is a leap year.
  let n := d / 365
  let n := n - n / 4
  let y := y + n
  let d := d - 365 * n
  (y + 1, d)

/-- Month (1..12) and day of month of day `yday` of a year.  Second half of
`absDate`. -/
def monthDay (leap : Bool) (yday : Int) : Nat × Int :=
  if leap = true ∧ yday = 31 + 29 - 1 then
    -- Leap day.
    (2, 29)
  else
    -- After leap day; pretend it was not there.
    let day := if leap = true ∧ yday > 31 + 29 - 1 then yday - 1 else yday
    -- Estimate month on assumption that every month has 31 days.
    let month := (day / 31).toNat
    let fin := daysBefore (month + 1)
    if day ≥ fin then (month + 2, day - fin + 1)
    else (month + 1, day - daysBefore month + 1)

/-- The calendar date of a day number (`absDate`): year, month and day of
month. -/
def absDate (days : Int) : Int × Nat × Int :=
  let (year, yday) := yearDay days
  let (month, day) := monthDay (isLeap year) yday
  (year, month, day)

/-- Go `time.Date(year, month, day, hour, min, sec, nsec, loc)` for in-range
fields and a fixed zone of `zone` minutes east of UTC. -/
def Date (year : Int) (month : Nat) (day hour min sec : Int) (nsec : Nat) (zone : Int) : Time :=
  let d := daysSinceEpoch year
  let d := d + daysBefore (month - 1)
  let d := if isLeap year = true ∧ month ≥ 3 then d + 1 else d
  let d := d + (day - 1)
  let abs := d * 86400 + hour * 3600 + min * 60 + sec
  ⟨abs - zone * 60, nsec, zone⟩

/-- The decimal digit `'0' + n` for `n < 10`. -/
def digitChar (n : Nat) : Char :=
  match n with
  | 0 => '0'
  | 1 => '1'
  | 2 => '2'
  | 3 => '3'
  | 4 => '4'
  | 5 => '5'
  | 6 => '6'
  | 7 => '7'
  | 8 => '8'
  | _ => '9'

/-- Decimal digits of `n`, most significant first, prepended to `acc`. -/
def decimal : Nat → Nat → List Char → List Char
  | 0, _, acc => acc
  | fuel + 1, n, acc =>
    if n < 10 then digitChar n :: acc
    else decimal fuel (n / 10) (digitChar (n % 10) :: acc)

/-- Go `appendInt(b, x, width)`: the decimal form of `x`, zero-padded to `width`
digits, with a leading minus sign when negative. -/
def appendInt (x : Int) (width : Nat) : List Char :=
  let u := x.natAbs
  let sign := if x < 0 then ['-'] else []
  if width = 2 ∧ u < 100 then
    sign ++ [digitChar (u / 10), digitChar (u % 10)]
  else if width = 4 ∧ u < 10000 then
    sign ++ [digitChar (u / 1000), digitChar (u / 100 % 10), digitChar (u / 10 % 10),
      digitChar (u % 10)]
  else
    let ds := decimal (u + 1) u []
    sign ++ List.replicate (width - ds.length) '0' ++ ds

/-- Wall-clock fields of `t` in its own zone: year, month, day, hour, minute,
second. -/
def Time.fields (t : Time) : Int × Nat × Int × Int × Int × Int :=
  let abs := t.sec + t.zone * 60
  let (year, month, day) := absDate (abs / 86400)
  let s := abs % 86400
  (year, month, day, s / 3600, s % 3600 / 60, s % 60)

/-- The zone suffix of layout element `Z07:00`. -/
def formatZone (zone : Int) : List Char :=
  if zone = 0 then ['Z']
  else
    let sign := if zone < 0 then '-' else '+'
    let z := zone.natAbs
    sign :: (appendInt (z / 60 : Nat) 2 ++ ':' :: appendInt (z % 60 : Nat) 2)

/-- Go `t.Format(time.RFC3339)`, layout `2006-01-02T15:04:05Z07:00`.  The layout
has no fractional-second element: `t.nsec` is not printed. -/
def Time.FormatRFC3339 (t : Time) : String :=
  let (year, month, day, hour, min, sec) := t.fields
  ⟨appendInt year 4 ++ '-' :: (appendInt month 2 ++ '-' :: (appendInt day 2 ++ 'T' ::
    (appendInt hour 2 ++ ':' :: (appendInt min 2 ++ ':' :: (appendInt sec 2 ++
      formatZone t.zone)))))⟩

/-- Go `t.Format(TIME_FILENAME)`, layout `2006-01-02T15-04-05Z` (the final `Z`
is literal text). -/
def Time.FormatFilename (t : Time) : String :=
  let (year, month, day, hour, min, sec) := t.fields
  ⟨appendInt year 4 ++ '-' :: (appendInt month 2 ++ '-' :: (appendInt day 2 ++ 'T' ::
    (appendInt hour 2 ++ '-' :: (appendInt min 2 ++ '-' :: (appendInt sec 2 ++ ['Z'])))))⟩

/-- Go `isDigit(s, i)`: an ASCII decimal digit. -/
def isDigit (c : Char) : Bool := decide ('0' ≤ c ∧ c ≤ '9')

/-- The value `c - '0'` of a digit. -/
def digitVal (c : Char) : Nat := c.toNat - 48

/-- Go `getnum(s, fixed)`: a leading one- or two-digit number; with `fixed` it
must have two digits. -/
def getnum (s : List Char) (fixed : Bool) : Except String (Nat × List Char) :=
  match s with
  | a :: b :: rest =>
    if isDigit a then
      if isDigit b then .ok (digitVal a * 10 + digitVal b, rest)
      else if fixed then .error "bad value" else .ok (digitVal a, b :: rest)
    else .error "bad value"
  | [a] =>
    if isDigit a then
      if fixed then .error "bad value" else .ok (digitVal a, [])
    else .error "bad value"
  | [] => .error "bad value"

/-- Matching of one literal layout character against the value. -/
def skipChar (c : Char) (s : List Char) : Except String (List Char) :=
  match s with
  | x :: rest => if x = c then .ok rest else .error "bad value"
  | [] => .error "bad value"

/-- The four-digit year of layout element `2006`. -/
def parseYear (s : List Char) : Except String (Int × List Char) :=
  match s with
  | a :: b :: c :: d :: rest =>
    if isDigit a && isDigit b && isDigit c && isDigit d then
      .ok (((digitVal a * 1000 + digitVal b * 100 + digitVal c * 10 + digitVal d : Nat) : Int),
        rest)
    else .error "bad value"
  | _ => .error "bad value"

/-- A fractional second following the seconds field, which `time.Parse`
accepts even when the layout has none: a period or comma followed by digits,
of which at most nine count.  Returns the nanoseconds. -/
def parseFraction (s : List Char) : Nat × List Char :=
  match s with
  | p :: d :: rest =>
    if (p = '.' ∨ p = ',') ∧ isDigit d = true then
      let ds := ((d :: rest).takeWhile isDigit).take 9
      (ds.foldl (fun a c => a * 10 + digitVal c) 0 * 10 ^ (9 - ds.length),
        (d :: rest).dropWhile isDigit)
    else (0, s)
  | _ => (0, s)

/-- The zone of layout element `Z07:00`, in minutes east of UTC: `Z`, or a
sign followed by `hh:mm`. -/
def parseZone (s : List Char) : Except String (Int × List Char) :=
  match s with
  | [] => .error "bad value"
  | sign :: s1 =>
    if sign = 'Z' then .ok (0, s1)
    else
      match s1 with
      | h1 :: h2 :: c :: m1 :: m2 :: rest =>
        if c ≠ ':' then .error "bad value"
        else
          match getnum [h1, h2] true, getnum [m1, m2] true with
          | .ok (hr, _), .ok (mm, _) =>
            if hr > 24 then .error "time zone offset hour out of range"
            else if mm > 60 then .error "time zone offset minute out of range"
            else if sign = '+' then .ok (((hr * 60 + mm : Nat) : Int), rest)
            else if sign = '-' then .ok (-((hr * 60 + mm : Nat) : Int), rest)
            else .error "bad value"
          | _, _ => .error "bad value"
      | _ => .error "bad value"

/-- Go `time.Parse(time.RFC3339, value)`, layout `2006-01-02T15:04:05Z07:00`. -/
def ParseRFC3339 (value : String) : Except String Time := do
  let (year, v) ← parseYear value.data
  let v ← skipChar '-' v
  let (month, v) ← getnum v true
  if month = 0 ∨ 12 < month then .error "month out of range"
  else do
  let v ← skipChar '-' v
  let (day, v) ← getnum v true
  let v ← skipChar 'T' v
  let (hour, v) ← getnum v false
  if 24 ≤ hour then .error "hour out of range"
  else do
  let v ← skipChar ':' v
  let (min, v) ← getnum v true
  if 60 ≤ min then .error "minute out of range"
  else do
  let v ← skipChar ':' v
  let (sec, v) ← getnum v true
  if 60 ≤ sec then .error "second out of range"
  else do
  let (nsec, v) := parseFraction v
  let (zone, v) ← parseZone v
  if v ≠ [] then .error "extra text"
  else if day < 1 ∨ (day : Int) > daysIn month year then .error "day out of range"
  else .ok (Date year month day hour min sec nsec zone)

/-- Go `skip(value, prefix)`: matches the literal text `prefix` of a layout at the
front of `value`; a run of spaces in the layout matches any run of spaces.
`afterSpace` tells that the previous layout character was a space. -/
def skip : List Char → List Char → Bool → Except String (List Char)
  | value, [], _ => .ok value
  | value, p :: prefix1, afterSpace =>
    if p = ' ' then
      if afterSpace = true then skip value prefix1 true
      else
        match value with
        | [] => skip [] prefix1 true
        | c :: _ =>
          if c ≠ ' ' then .error "bad value"
          else skip (value.dropWhile (fun x => x = ' ')) prefix1 true
    else
      match value with
      | [] => .error "bad value"
      | c :: rest => if c = p then skip rest prefix1 false else .error "bad value"

/-- Lower case of an ASCII capital letter; other characters are unchanged. -/
def foldCase (c : Char) : Char :=
  if 'A' ≤ c ∧ c ≤ 'Z' then Char.ofNat (c.toNat + 32) else c

/-- Go `match(s1, s2)`: equality of two texts of equal length, letters compared
without regard to case. -/
def matchFold : List Char → List Char → Bool
  | [], [] => true
  | c1 :: s1, c2 :: s2 =>
    (c1 = c2 ∨ (foldCase c1 = foldCase c2 ∧ 'a' ≤ foldCase c1 ∧ foldCase c1 ≤ 'z')) &&
      matchFold s1 s2
  | _, _ => false

/-- Go `lookup(tab, val)`: index of the first name of `tab` that starts `val`,
counted from `i`, and the rest of `val`. -/
def lookup : List String → List Char → Nat → Except String (Nat × List Char)
  | [], _, _ => .error "bad value"
  | v :: tab, val, i =>
    if v.length ≤ val.length ∧ matchFold (val.take v.length) v.data = true then
      .ok (i, val.drop v.length)
    else lookup tab val (i + 1)

/-- Go `shortDayNames`. -/
def shortDayNames : List String := ["Sun", "Mon", "Tue", "Wed", "Thu", "Fri", "Sat"]

/-- Go `shortMonthNames`. -/
def shortMonthNames : List String :=
  ["Jan", "Feb", "Mar", "Apr", "May", "Jun", "Jul", "Aug", "Sep", "Oct", "Nov", "Dec"]

/-- Go `time.Parse("Mon, 2 Jan 2006 15:04:05 GMT", value)`.  This layout is the
constant `RFC822` of package `rest` of the AWS SDK, to which the program sets
`TIME_LAYOUT`; `GMT` in it is literal text, so the time is in UTC.  The name of
the weekday is checked to be one, not to fit the date.  As with every layout, a
fraction of a second may follow the seconds. -/
def ParseTimeLayout (value : String) : Except String Time := do
  let (_, v) ← lookup shortDayNames value.data 0
  let v ← skip v [',', ' '] false
  let (day, v) ← getnum v false
  let v ← skip v [' '] false
  let (month0, v) ← lookup shortMonthNames v 0
  let month := month0 + 1
  let v ← skip v [' '] false
  let (year, v) ← parseYear v
  let v ← skip v [' '] false
  let (hour, v) ← getnum v false
  if 24 ≤ hour then .error "hour out of range"
  else do
  let v ← skip v [':'] false
  let (min, v) ← getnum v true
  if 60 ≤ min then .error "minute out of range"
  else do
  let v ← skip v [':'] false
  let (sec, v) ← getnum v true
  if 60 ≤ sec then .error "second out of range"
  else do
  let (nsec, v) := parseFraction v
  let v ← skip v [' ', 'G', 'M', 'T'] false
  if v ≠ [] then .error "extra text"
  else if day < 1 ∨ (day : Int) > daysIn month year then .error "day out of range"
  else .ok (Date year month day hour min sec nsec 0)

/-! ## Package `regexp` -/

/-- A parsed regular expression (`regexp/syntax.Regexp`), restricted to the
operators that occur in the pattern of this program. -/
inductive Regexp where
  | emptyMatch
  | literal (runes : List Char)
  | charClass (lo hi : Char)
  | beginText
  | endText
  | capture (cap : Nat) (sub : Regexp)
  | repeatN (count : Nat) (sub : Regexp)
  | concat (a b : Regexp)
deriving DecidableEq

/-- A position of the matcher in the text: `pos` characters consumed, `rest`
still ahead, and the capture groups closed so far. -/
structure MatchState where
  pos : Nat
  rest : List Char
  caps : List (Nat × List Char)
deriving DecidableEq

/-- Runs `f` `n` times in sequence. -/
def iterate (f : MatchState → Option MatchState) : Nat → MatchState → Option MatchState
  | 0, st => some st
  | n + 1, st =>
    match f st with
    | some st1 => iterate f n st1
    | none => none

/-- Matches `re` at the current position.  None of the supported operators
offers a choice, so a match from a given position is unique when it exists. -/
def Regexp.run : Regexp → MatchState → Option MatchState
  | .emptyMatch, st => some st
  | .literal runes, st =>
    if runes.isPrefixOf st.rest = true then
      some { st with pos := st.pos + runes.length, rest := st.rest.drop runes.length }
    else none
  | .charClass lo hi, st =>
    match st.rest with
    | c :: rest =>
      if lo ≤ c ∧ c ≤ hi then some { st with pos := st.pos + 1, rest := rest } else none
    | [] => none
  | .beginText, st => if st.pos = 0 then some st else none
  | .endText, st => if st.rest = [] then some st else none
  | .capture cap sub, st =>
    match sub.run st with
    | some st1 => some { st1 with caps := (cap, st.rest.take (st1.pos - st.pos)) :: st1.caps }
    | none => none
  | .repeatN count sub, st => iterate (fun s => sub.run s) count st
  | .concat a b, st =>
    match a.run st with
    | some st1 => b.run st1
    | none => none

/-- Go `re.NumSubexp()`: the number of capture groups. -/
def Regexp.NumSubexp : Regexp → Nat
  | .capture cap sub => max cap sub.NumSubexp
  | .repeatN _ sub => sub.NumSubexp
  | .concat a b => max a.NumSubexp b.NumSubexp
  | _ => 0

/-- Leftmost match: tries every start position in turn.  Returns the text from
the start of the match together with the final matcher state. -/
def Regexp.search (re : Regexp) : Nat → List Char → Option (List Char × Nat × MatchState)
  | pos, [] =>
    match re.run ⟨pos, [], []⟩ with
    | some st => some ([], pos, st)
    | none => none
  | pos, c :: rest =>
    match re.run ⟨pos, c :: rest, []⟩ with
    | some st => some (c :: rest, pos, st)
    | none => re.search (pos + 1) rest

/-- Text of capture group `cap`, empty when the group did not take part. -/
def capText (caps : List (Nat × List Char)) (cap : Nat) : String :=
  match caps.find? (fun p => p.1 = cap) with
  | some p => ⟨p.2⟩
  | none => ""

/-- Go `re.MatchString(s)`. -/
def Regexp.MatchString (re : Regexp) (s : String) : Bool :=
  (re.search 0 s.data).isSome

/-- Go `re.FindStringSubmatch(s)`: the leftmost match followed by the text of each
capture group; `nil` (the empty slice) when there is no match. -/
def Regexp.FindStringSubmatch (re : Regexp) (s : String) : List String :=
  match re.search 0 s.data with
  | some (text, start, st) =>
    ⟨text.take (st.pos - start)⟩ ::
      (List.range re.NumSubexp).map (fun i => capText st.caps (i + 1))
  | none => []

/-- An entry of the parse stack: a finished expression or an open parenthesis. -/
inductive Item where
  | re (r : Regexp)
  | leftParen (cap : Nat)

/-- Puts `r` in front of the concatenation `tail`; a literal in front of a
literal merges into one literal string. -/
def concat2 (r tail : Regexp) : Regexp :=
  match r, tail with
  | .literal a, .literal b => .literal (a ++ b)
  | .literal a, .concat (.literal b) t => .concat (.literal (a ++ b)) t
  | r, t => .concat r t

/-- Concatenation of a sequence of expressions. -/
def mkConcat : List Regexp → Regexp
  | [] => .emptyMatch
  | [r] => r
  | r :: rs => concat2 r (mkConcat rs)

/-- Pops the stack down to the nearest open parenthesis; `acc` collects the
expressions above it in source order. -/
def collapse : List Item → List Regexp → List Regexp × Option (Nat × List Item)
  | [], acc => (acc, none)
  | .leftParen cap :: stack, acc => (acc, some (cap, stack))
  | .re r :: stack, acc => collapse stack (r :: acc)

/-- Applies `{count}` to the expression on top of the stack. -/
def pushRepeat (count : Nat) (stack : List Item) : Except String (List Item) :=
  match stack with
  | .re r :: stack1 =>
    match r with
    | .beginText => .error "missing argument to repetition operator"
    | .endText => .error "missing argument to repetition operator"
    | _ => .ok (.re (.repeatN count r) :: stack1)
  | _ => .error "missing argument to repetition operator"

/-- The parser of `regexp/syntax`, for literals, `^`, `$`, one-range classes
`[a-b]`, groups `( )` and counted repetition `{n}` of up to two digits. -/
def parseLoop : List Char → List Item → Nat → Except String Regexp
  | [], stack, _ =>
    match collapse stack [] with
    | (rs, none) => .ok (mkConcat rs)
    | (_, some _) => .error "missing closing )"
  | '^' :: cs, stack, ncap => parseLoop cs (.re .beginText :: stack) ncap
  | '$' :: cs, stack, ncap => parseLoop cs (.re .endText :: stack) ncap
  | '(' :: cs, stack, ncap => parseLoop cs (.leftParen (ncap + 1) :: stack) (ncap + 1)
  | ')' :: cs, stack, ncap =>
    match collapse stack [] with
    | (rs, some (cap, stack1)) => parseLoop cs (.re (.capture cap (mkConcat rs)) :: stack1) ncap
    | (_, none) => .error "unexpected )"
  | '[' :: lo :: '-' :: hi :: ']' :: cs, stack, ncap =>
    if lo ≤ hi then parseLoop cs (.re (.charClass lo hi) :: stack) ncap
    else .error "invalid character class range"
  | '{' :: d :: '}' :: cs, stack, ncap =>
    if isDigit d then
      match pushRepeat (digitVal d) stack with
      | .ok stack1 => parseLoop cs stack1 ncap
      | .error e => .error e
    else .error "unsupported repetition"
  | '{' :: d1 :: d2 :: '}' :: cs, stack, ncap =>
    if isDigit d1 && isDigit d2 then
      match pushRepeat (digitVal d1 * 10 + digitVal d2) stack with
      | .ok stack1 => parseLoop cs stack1 ncap
      | .error e => .error e
    else .error "unsupported repetition"
  | c :: cs, stack, ncap =>
    if c ∈ ['\\', '.', '+', '*', '?', '|', '[', ']', '{', '}'] then .error "unsupported operator"
    else parseLoop cs (.re (.literal [c]) :: stack) ncap

/-- Go `regexp.Compile(expr)`, for the syntax that `parseLoop` covers. -/
def regexpCompile (expr : String) : Except String Regexp :=
  parseLoop expr.data [] 0

/-! ## Package `strings` -/

/-- Go `strings.Trim(s, cutset)`: `s` without the leading and trailing characters
contained in `cutset`. -/
def stringsTrim (s cutset : String) : String :=
  ⟨((s.data.dropWhile (fun c => cutset.data.contains c)).reverse.dropWhile
    (fun c => cutset.data.contains c)).reverse⟩

/-! ## The program -/

/-- Pattern of the application names that are exported. -/
def APPNAME_REG : String := "^aws-reconciler-production-([0-9]{12})-([0-9]{4})-([0-9]{2})$"

/-- A `time.Time` with its own JSON decoding. -/
structure CustomTime where
  Time : Time
deriving DecidableEq

/-- Go `CustomTime.UnmarshalJSON`.  `parseLayout` is `time.Parse(TIME_LAYOUT, ·)`;
the layout constant comes from another package, and `ParseTimeLayout` is the
parser for the value it has there. -/
def CustomTime.UnmarshalJSON (parseLayout : String → Except String OozieDump.Time)
    (b : String) : Except String CustomTime :=
  let s := stringsTrim b "\""
  if s = "null" then .ok ⟨Time.zero⟩
  else
    match parseLayout s with
    | .ok t => .ok ⟨t⟩
    | .error err => .error err

/-- One workflow record of the Oozie jobs listing. -/
structure Workflow where
  Status : String
  CreatedTime : CustomTime
  Id : String
  AppName : String
  User : String
  LastModTime : CustomTime
  EndTime : CustomTime
deriving DecidableEq

/-- The jobs listing. -/
structure Jobs where
  Total : Int
  Workflows : List Workflow
  Len : Int
  Offset : Int

/-- State of the file `_marker` of a directory. -/
inductive MarkerFile where
  | absent
  | unreadable (err : String)
  | content (bytes : String)
deriving DecidableEq

/-- The file system, as far as the watermark is concerned: the state of the
`_marker` file of each directory. -/
abbrev FS := String → MarkerFile

/-- A call that acts on the outside world, with the error it returned. -/
inductive Event where
  | create (dir name : String) (err : Option String)
  | writeRow (record : List String) (err : Option String)
  | writeFile (dir name data : String) (err : Option String)
  | flush (err : Option String)
  | close
deriving DecidableEq

/-- What the outside world answers during one pass: the clock, and the error
(if any) of each call.  `writeErr n` is the error of a `csv.Writer.Write` made
as effect number `n` of the pass, `flushErr` the error that the writer holds
after `Flush`, and `markerErr` carries the state in which a failed
`ioutil.WriteFile` leaves the marker. -/
structure Env where
  now : Time
  createErr : Option String
  writeErr : Nat → Option String
  flushErr : Option String
  markerErr : Option (String × MarkerFile)

/-- How a call of `writeUpdate` ends. -/
inductive Result where
  | ok
  | error (msg : String)
  | panic (msg : String)
deriving DecidableEq

/-- A finished call: its result, its effects in order, and the file system it
leaves. -/
structure Run where
  result : Result
  trace : List Event
  fs : FS

/-- The sentinel watermark `time.Date(2000, 1, 1, 0, 0, 0, 0, time.UTC)`. -/
def sentinel : Time := Date 2000 1 1 0 0 0 0 0

/-- Go `readMarker(outputDir)`. -/
def readMarker (fs : FS) (outputDir : String) : Except String Time :=
  let result := sentinel
  match fs outputDir with
  | .absent => .ok result
  | .unreadable err => .error err
  | .content b => ParseRFC3339 b

/-- The header record. -/
def header : List String :=
  ["id", "appName", "master", "year", "month", "status", "createdTime", "lastModTime", "endTime"]

/-- Variables of the loop of `writeUpdate`: the running maximum, the effects
so far, and whether an index went out of range. -/
structure LoopState where
  lastMod : Time
  trace : List Event
  panicked : Bool

/-- One iteration of the loop over `jobs.Workflows`. -/
def loopBody (env : Env) (re : Regexp) (markerTime : Time) (st : LoopState)
    (workflow : Workflow) : LoopState :=
  if st.panicked = true then st
  else if (re.MatchString workflow.AppName && markerTime.Before workflow.LastModTime.Time) = true then
    let lastMod :=
      if st.lastMod.Before workflow.LastModTime.Time = true then workflow.LastModTime.Time
      else st.lastMod
    let parts := re.FindStringSubmatch workflow.AppName
    match parts.get? 1, parts.get? 2, parts.get? 3 with
    | some p1, some p2, some p3 =>
      { lastMod := lastMod
        trace := st.trace ++ [.writeRow [
          workflow.Id,
          workflow.AppName,
          p1,
          p2,
          p3,
          workflow.Status,
          workflow.CreatedTime.Time.FormatRFC3339,
          workflow.LastModTime.Time.FormatRFC3339,
          workflow.EndTime.Time.FormatRFC3339] (env.writeErr st.trace.length)]
        panicked := false }
    | _, _, _ => { lastMod := lastMod, trace := st.trace, panicked := true }
  else st

/-- Go `writeUpdate(jobs, outputDir, markerTime)`.  The deferred `writer.Flush()`
and `fw.Close()` run, in that order, when the function leaves after the file
was created.  Log output is not part of the model. -/
def writeUpdate (env : Env) (fs : FS) (jobs : Jobs) (outputDir : String) (markerTime : Time) :
    Run :=
  match regexpCompile APPNAME_REG with
  | .error err => ⟨.error ("failed to compile regex:" ++ err), [], fs⟩
  | .ok re =>
    let lastMod := markerTime
    let outputName := env.now.InUTC.FormatFilename ++ ".csv"
    match env.createErr with
    | some err =>
      ⟨.error ("cannot create output file:" ++ err), [.create outputDir outputName (some err)], fs⟩
    | none =>
      let st0 : LoopState :=
        ⟨lastMod, [.create outputDir outputName none, .writeRow header (env.writeErr 1)], false⟩
      let st := jobs.Workflows.foldl (loopBody env re markerTime) st0
      if st.panicked = true then
        ⟨.panic "index out of range", st.trace ++ [.flush env.flushErr, .close], fs⟩
      else
        -- MARKER_FORMAT is time.RFC3339
        let markerBytes := st.lastMod.FormatRFC3339
        match env.markerErr with
        | some (err, left) =>
          ⟨.error ("failed to write marker:" ++ err),
            st.trace ++ [.writeFile outputDir "_marker" markerBytes (some err),
              .flush env.flushErr, .close],
            Function.update fs outputDir left⟩
        | none =>
          ⟨.ok,
            st.trace ++ [.writeFile outputDir "_marker" markerBytes none,
              .flush env.flushErr, .close],
            Function.update fs outputDir (.content markerBytes)⟩

/-- The part of `main` that runs once the jobs are loaded and the output
directory exists: read the marker, then write the update.  `none` when
reading the marker fails (`main` panics before `writeUpdate`). -/
def syncPass (env : Env) (fs : FS) (jobs : Jobs) (outputDir : String) : Option Run :=
  match readMarker fs outputDir with
  | .error _ => none
  | .ok marker => some (writeUpdate env fs jobs outputDir marker)

/-! ## Vocabulary of the statements -/

/-- The syntax tree of `APPNAME_REG`. -/
def appNameRegexp : Regexp :=
  .concat .beginText (.concat (.literal "aws-reconciler-production-".data)
    (.concat (.capture 1 (.repeatN 12 (.charClass '0' '9'))) (.concat (.literal ['-'])
      (.concat (.capture 2 (.repeatN 4 (.charClass '0' '9'))) (.concat (.literal ['-'])
        (.concat (.capture 3 (.repeatN 2 (.charClass '0' '9'))) .endText))))))

/-- All characters are decimal digits. -/
def allDigits (l : List Char) : Prop := ∀ c ∈ l, isDigit c = true

/-- The shape of an exported application name: the fixed prefix, twelve digits,
a dash, four digits, a dash, two digits. -/
def NameForm (name : String) (master year month : String) : Prop :=
  master.length = 12 ∧ year.length = 4 ∧ month.length = 2 ∧
    allDigits master.data ∧ allDigits year.data ∧ allDigits month.data ∧
    name = "aws-reconciler-production-" ++ master ++ "-" ++ year ++ "-" ++ month

/-- Whether `name` matches the compiled `APPNAME_REG`. -/
def matchesPattern (name : String) : Bool :=
  match regexpCompile APPNAME_REG with
  | .ok re => re.MatchString name
  | .error _ => false

/-- Element `i` of the submatches of `name` against the compiled `APPNAME_REG`
(the whole match for `i = 0`, then the capture groups). -/
def submatch (name : String) (i : Nat) : String :=
  match regexpCompile APPNAME_REG with
  | .ok re => (re.FindStringSubmatch name).getD i ""
  | .error _ => ""

/-- The selection test of a pass whose watermark is `markerTime`. -/
def accepts (markerTime : Time) (workflow : Workflow) : Bool :=
  matchesPattern workflow.AppName && markerTime.Before workflow.LastModTime.Time

/-- The record written for a workflow. -/
def rowOf (workflow : Workflow) : List String :=
  [workflow.Id, workflow.AppName, submatch workflow.AppName 1, submatch workflow.AppName 2,
    submatch workflow.AppName 3, workflow.Status, workflow.CreatedTime.Time.FormatRFC3339,
    workflow.LastModTime.Time.FormatRFC3339, workflow.EndTime.Time.FormatRFC3339]

/-- The records handed to the CSV writer during a run, in order. -/
def Run.rows (r : Run) : List (List String) :=
  r.trace.filterMap fun e =>
    match e with
    | .writeRow record _ => some record
    | _ => none

/-- The later of two times; the first when neither is later. -/
def later (a b : Time) : Time := if a.Before b = true then b else a

/-- The latest of `w` and the times `ts`. -/
def latest (w : Time) (ts : List Time) : Time := ts.foldl later w

/-- The `writer.Write` calls for the workflows `ws`, the first of them being
effect number `k`. -/
def rowEvents (env : Env) : Nat → List Workflow → List Event
  | _, [] => []
  | k, w :: ws => .writeRow (rowOf w) (env.writeErr k) :: rowEvents env (k + 1) ws

/-- An environment in which every call succeeds. -/
def exampleEnv : Env := ⟨Date 2023 8 1 12 0 0 0 0, none, fun _ => none, none, none⟩

/-- A workflow with a well-formed application name, last modified at `lastMod`,
whose creation and end times are null. -/
def exampleWorkflow (lastMod : Time) : Workflow :=
  ⟨"SUCCEEDED", ⟨Time.zero⟩, "0000001-230701000000000-oozie-oozi-W",
    "aws-reconciler-production-123456789012-2023-07", "hadoop", ⟨lastMod⟩, ⟨Time.zero⟩⟩

/-- A file system without any marker. -/
def noMarker : FS := fun _ => .absent

/-- An environment in which every write to the output file fails, and so does
its flush, while the marker can be written. -/
def failingWritesEnv : Env :=
  ⟨Date 2023 8 1 12 0 0 0 0, none, fun _ => some "input/output error",
    some "input/output error", none⟩

/-- An environment in which the output file cannot be created. -/
def noCreateEnv : Env :=
  ⟨Date 2023 8 1 12 0 0 0 0, some "permission denied", fun _ => none, none, none⟩

/-- A record set with one well-formed record, last modified half a second after
`2023-07-01T00:00:00Z`. -/
def halfSecondJobs : Jobs := ⟨1, [exampleWorkflow (Date 2023 7 1 0 0 0 500000000 0)], 1, 0⟩

/-- A file system whose marker in every directory carries a fraction of a
second. -/
def fractionMarker : FS := fun _ => .content "2000-01-01T00:00:00.5Z"

/-- A sequence of passes over the directory `dir`, each being `syncPass` with
its own environment and record set, started in the file system `fs`.  Returns
the file system left by each pass, in order; `none` as soon as one pass does
not succeed. -/
def runPasses (dir : String) : FS → List (Env × Jobs) → Option (List FS)
  | _, [] => some []
  | fs, (env, jobs) :: rest =>
    match syncPass env fs jobs dir with
    | none => none
    | some run =>
      if run.result = .ok then
        match runPasses dir run.fs rest with
        | some states => some (run.fs :: states)
        | none => none
      else none

/-! ## Calendar arithmetic -/

theorem yearDay_spec (d : Int) :
    0 ≤ (yearDay d).2 ∧ (yearDay d).2 < (if isLeap (yearDay d).1 = true then 366 else 365) ∧
      daysSinceEpoch (yearDay d).1 + (yearDay d).2 = d := by
  simp only [yearDay, daysSinceEpoch, isLeap, decide_eq_true_eq]
  generalize ha : d / 146097 = a
  have hd1 : 0 ≤ d - 146097 * a ∧ d - 146097 * a < 146097 := by omega
  generalize h1e : d - 146097 * a = d1 at hd1 ⊢
  clear ha
  generalize hb : d1 / 36524 - d1 / 36524 / 4 = b
  have hb2 : 0 ≤ b ∧ b ≤ 3 ∧ 0 ≤ d1 - 36524 * b ∧ d1 - 36524 * b ≤ 36524 ∧
      (b < 3 → d1 - 36524 * b < 36524) := by omega
  generalize h2e : d1 - 36524 * b = d2 at hb2 ⊢
  clear hb
  generalize hc : d2 / 1461 = c
  have hc2 : 0 ≤ c ∧ c ≤ 24 ∧ 0 ≤ d2 - 1461 * c ∧ d2 - 1461 * c < 1461 ∧
      (c = 24 → b < 3 → d2 - 1461 * c < 1460) := by omega
  generalize h3e : d2 - 1461 * c = d3 at hc2 ⊢
  clear hc
  generalize he : d3 / 365 - d3 / 365 / 4 = e
  have he2 : 0 ≤ e ∧ e ≤ 3 ∧ 0 ≤ d3 - 365 * e ∧ d3 - 365 * e ≤ 365 ∧
      (e < 3 → d3 - 365 * e < 365) := by omega
  obtain ⟨hb0, hb3, -, -, -⟩ := hb2
  obtain ⟨hc0, hc24, hd30, hd3, hd3'⟩ := hc2
  obtain ⟨he0, he3, hyd0, hyd, hyd'⟩ := he2
  have h1 : (400 * a + 100 * b + 4 * c + e + 1 - 1) / 400 = a := by omega
  have h2 : (400 * a + 100 * b + 4 * c + e + 1 - 1 - 400 * a) / 100 = b := by omega
  have h3 : (400 * a + 100 * b + 4 * c + e + 1 - 1 - 400 * a - 100 * b) / 4 = c := by omega
  rw [h1, h2, h3]
  refine ⟨hyd0, ?_, by omega⟩
  have m4 : (400 * a + 100 * b + 4 * c + e + 1) % 4 = (e + 1) % 4 := by omega
  have m100 : (400 * a + 100 * b + 4 * c + e + 1) % 100 = (4 * c + e + 1) % 100 := by omega
  have m400 : (400 * a + 100 * b + 4 * c + e + 1) % 400 = (100 * b + 4 * c + e + 1) % 400 := by
    omega
  rw [m4, m100, m400]
  split_ifs with hl
  · omega
  · by_cases h : e < 3
    · exact hyd' h
    · have e3 : e = 3 := by omega
      subst e3
      by_cases hc : c = 24
      · subst hc
        by_cases hb : b < 3
        · have := hd3' rfl hb
          omega
        · exfalso; apply hl; omega
      · exfalso; apply hl; omega

theorem daysBefore_table :
    daysBefore 0 = 0 ∧ daysBefore 1 = 31 ∧ daysBefore 2 = 59 ∧ daysBefore 3 = 90 ∧
    daysBefore 4 = 120 ∧ daysBefore 5 = 151 ∧ daysBefore 6 = 181 ∧ daysBefore 7 = 212 ∧
    daysBefore 8 = 243 ∧ daysBefore 9 = 273 ∧ daysBefore 10 = 304 ∧ daysBefore 11 = 334 ∧
    daysBefore 12 = 365 :=
  ⟨rfl, rfl, rfl, rfl, rfl, rfl, rfl, rfl, rfl, rfl, rfl, rfl, rfl⟩

theorem monthDay_spec (leap : Bool) (yd : Int) (m : Nat) (dd : Int) (h0 : 0 ≤ yd)
    (h1 : yd < (if leap = true then 366 else 365)) (h : monthDay leap yd = (m, dd)) :
    1 ≤ m ∧ m ≤ 12 ∧ 1 ≤ dd ∧
    dd ≤ (if m = 2 ∧ leap = true then 29 else daysBefore m - daysBefore (m - 1)) ∧
    daysBefore (m - 1) + (if leap = true ∧ m ≥ 3 then 1 else 0) + (dd - 1) = yd := by
  obtain ⟨t0, t1, t2, t3, t4, t5, t6, t7, t8, t9, t10, t11, t12⟩ := daysBefore_table
  unfold monthDay at h
  by_cases hl : leap = true ∧ yd = 31 + 29 - 1
  · rw [if_pos hl] at h
    obtain ⟨hl1, hl2⟩ := hl
    obtain ⟨rfl, rfl⟩ := Prod.mk.inj h
    simp [hl1, hl2, t1]
  · rw [if_neg hl] at h
    simp only [] at h
    have hlt : leap = true → yd ≠ 59 := fun a b => hl ⟨a, by omega⟩
    generalize hday : (if leap = true ∧ yd > 31 + 29 - 1 then yd - 1 else yd) = day at h
    have hd : 0 ≤ day ∧ day < 365 ∧ (leap = false → day = yd) ∧
        (leap = true → (yd < 59 ∧ day = yd) ∨ (yd > 59 ∧ day = yd - 1)) := by
      rw [← hday]
      cases leap
      · simp at h1 ⊢; omega
      · simp at h1 hlt ⊢; split_ifs <;> omega
    clear hday hl
    have hq : 0 ≤ day / 31 := by omega
    obtain ⟨k, hk⟩ := Int.eq_ofNat_of_zero_le hq
    have hk3 : k < 12 := by omega
    simp only [hk, Int.toNat_ofNat] at h
    obtain ⟨hd0, hd1, hd2, hd3⟩ := hd
    cases leap
    · have e := hd2 rfl
      subst e
      simp only [Bool.false_eq_true, and_false, false_and, if_false]
      clear hd2 hd3 hlt
      interval_cases k <;> simp only [Nat.reduceAdd, t0, t1, t2, t3, t4, t5, t6, t7, t8, t9, t10, t11, t12] at h <;>
        split_ifs at h <;> obtain ⟨rfl, rfl⟩ := Prod.mk.inj h <;>
        simp only [Nat.reduceSub, Nat.reduceEqDiff, t0, t1, t2, t3, t4, t5, t6, t7, t8, t9, t10, t11, t12] <;> omega
    · have e := hd3 rfl
      clear hd2 hd3 hlt
      simp only [true_and, and_true]
      interval_cases k <;> simp only [Nat.reduceAdd, t0, t1, t2, t3, t4, t5, t6, t7, t8, t9, t10, t11, t12] at h <;>
        split_ifs at h <;> obtain ⟨rfl, rfl⟩ := Prod.mk.inj h <;>
        simp only [Nat.reduceSub, Nat.reduceEqDiff, Nat.reduceLeDiff, ge_iff_le, if_true, if_false,
          OfNat.ofNat_ne_one, Nat.one_le_ofNat, Nat.not_ofNat_le_one,
          t0, t1, t2, t3, t4, t5, t6, t7, t8, t9, t10, t11, t12] <;>
        (try simp) <;> omega

/-! ## Formatting and parsing a time

The text that `Format` produces is read back by `Parse` as the same instant,
short of its fraction of a second. -/

theorem isDigit_digitChar (n : Nat) : isDigit (digitChar n) = true := by
  unfold digitChar
  split <;> decide

theorem digitVal_digitChar (n : Nat) (h : n < 10) : digitVal (digitChar n) = n := by
  interval_cases n <;> rfl

theorem fields_spec (t : Time) (y : Int) (m : Nat) (d h mi s : Int)
    (hf : t.fields = (y, m, d, h, mi, s)) :
    1 ≤ m ∧ m ≤ 12 ∧ 1 ≤ d ∧ d ≤ daysIn m y ∧ 0 ≤ h ∧ h < 24 ∧ 0 ≤ mi ∧ mi < 60 ∧ 0 ≤ s ∧ s < 60 ∧
      ∀ n, Date y m d h mi s n t.zone = ⟨t.sec, n, t.zone⟩ := by
  unfold Time.fields absDate at hf
  simp only [] at hf
  generalize habs : t.sec + t.zone * 60 = abs at hf
  obtain ⟨y0, y1, y2⟩ := yearDay_spec (abs / 86400)
  generalize hyd : yearDay (abs / 86400) = yd at hf y0 y1 y2
  obtain ⟨yy, yday⟩ := yd
  generalize hmd : monthDay (isLeap yy) yday = md at hf
  obtain ⟨mm, dd⟩ := md
  simp only [Prod.mk.injEq] at hf
  obtain ⟨rfl, rfl, rfl, rfl, rfl, rfl⟩ := hf
  obtain ⟨m1, m2, m3, m4, m5⟩ := monthDay_spec _ _ _ _ y0 y1 hmd
  refine ⟨m1, m2, m3, ?_, by omega, by omega, by omega, by omega, by omega, by omega, ?_⟩
  · unfold daysIn
    by_cases h2 : mm = 2 ∧ isLeap yy = true
    · rw [if_pos h2] at m4 ⊢; exact m4
    · rw [if_neg h2] at m4 ⊢; exact m4
  · intro n
    unfold Date
    simp only [Time.mk.injEq, and_true, true_and]
    simp only [] at y2
    split_ifs at m5 ⊢ <;> omega

theorem appendInt_two (u : Nat) (h : u < 100) :
    appendInt (u : Int) 2 = [digitChar (u / 10), digitChar (u % 10)] := by
  unfold appendInt
  have : ¬ ((u : Int) < 0) := by omega
  simp [h, this]

theorem appendInt_four (u : Nat) (h : u < 10000) :
    appendInt (u : Int) 4 =
      [digitChar (u / 1000), digitChar (u / 100 % 10), digitChar (u / 10 % 10), digitChar (u % 10)] := by
  unfold appendInt
  have : ¬ ((u : Int) < 0) := by omega
  simp [h, this]

theorem getnum_digits (a b : Nat) (ha : a < 10) (hb : b < 10) (rest : List Char) (fixed : Bool) :
    getnum (digitChar a :: digitChar b :: rest) fixed = .ok (a * 10 + b, rest) := by
  simp [getnum, isDigit_digitChar, digitVal_digitChar, ha, hb]

theorem getnum_appendInt (u : Nat) (h : u < 100) (rest : List Char) (fixed : Bool) :
    getnum (appendInt (u : Int) 2 ++ rest) fixed = .ok (u, rest) := by
  rw [appendInt_two u h]
  simp only [List.cons_append, List.nil_append]
  rw [getnum_digits _ _ (by omega) (by omega)]
  congr 2
  omega

theorem parseYear_appendInt (u : Nat) (h : u < 10000) (rest : List Char) :
    parseYear (appendInt (u : Int) 4 ++ rest) = .ok ((u : Int), rest) := by
  rw [appendInt_four u h]
  simp only [List.cons_append, List.nil_append, parseYear, isDigit_digitChar, Bool.and_self,
    if_true]
  rw [digitVal_digitChar _ (by omega), digitVal_digitChar _ (by omega),
    digitVal_digitChar _ (by omega), digitVal_digitChar _ (by omega)]
  congr 3
  omega

theorem decimal_digits (fuel n : Nat) (acc : List Char) (h : ∀ c ∈ acc, isDigit c = true) :
    ∀ c ∈ decimal fuel n acc, isDigit c = true := by
  induction fuel generalizing n acc with
  | zero => simpa [decimal] using h
  | succ fuel ih =>
    unfold decimal
    split_ifs
    · intro c hc
      rcases List.mem_cons.1 hc with rfl | hc
      · exact isDigit_digitChar n
      · exact h c hc
    · apply ih
      intro c hc
      rcases List.mem_cons.1 hc with rfl | hc
      · exact isDigit_digitChar _
      · exact h c hc

theorem decimal_length (fuel n k : Nat) (acc : List Char) (hn : n < fuel) (hk : 10 ^ k ≤ n) :
    acc.length + k + 1 ≤ (decimal fuel n acc).length := by
  induction fuel generalizing n k acc with
  | zero => omega
  | succ fuel ih =>
    unfold decimal
    split_ifs with h10
    · cases k with
      | zero => simp
      | succ k =>
        have : 10 ^ 1 ≤ 10 ^ (k + 1) := Nat.pow_le_pow_right (by omega) (by omega)
        omega
    · cases k with
      | zero =>
        have := ih (n / 10) 0 (digitChar (n % 10) :: acc) (by omega) (by simp; omega)
        simp only [List.length_cons] at this
        omega
      | succ k =>
        have hk2 : 10 ^ k ≤ n / 10 := by
          rw [Nat.le_div_iff_mul_le (by omega)]
          rw [pow_succ] at hk
          exact hk
        have := ih (n / 10) k (digitChar (n % 10) :: acc) (by omega) hk2
        simp only [List.length_cons] at this
        omega

/-- The digits of a number too large for its field: more than `width` of them,
all decimal. -/
theorem appendInt_large (u width k : Nat) (hw : width ≤ k) (hk : 10 ^ k ≤ u)
    (h2 : width = 2 ∨ width = 4) (hk2 : 2 ≤ k) (hk4 : width = 4 → 4 ≤ k) :
    (∀ c ∈ appendInt (u : Int) width, isDigit c = true) ∧
      k + 1 ≤ (appendInt (u : Int) width).length := by
  have hd := decimal_digits (u + 1) u [] (by simp)
  have hl := decimal_length (u + 1) u k [] (by omega) hk
  have h100 : 10 ^ 2 ≤ 10 ^ k := Nat.pow_le_pow_right (by omega) hk2
  have hneg : ¬ ((u : Int) < 0) := by omega
  unfold appendInt
  simp only [Int.natAbs_ofNat, hneg, if_false, List.nil_append]
  rw [if_neg (by omega)]
  rcases h2 with rfl | rfl
  · rw [if_neg (by omega)]
    simp only [List.length_nil, zero_add] at hl
    have : 2 - (decimal (u + 1) u []).length = 0 := by omega
    simp only [this, List.replicate_zero, List.nil_append]
    exact ⟨hd, hl⟩
  · have h4 := hk4 rfl
    have h10000 : 10 ^ 4 ≤ 10 ^ k := Nat.pow_le_pow_right (by omega) h4
    rw [if_neg (by omega)]
    simp only [List.length_nil, zero_add] at hl
    have : 4 - (decimal (u + 1) u []).length = 0 := by omega
    simp only [this, List.replicate_zero, List.nil_append]
    exact ⟨hd, hl⟩

theorem parseFraction_other (c : Char) (l : List Char) (h1 : c ≠ '.') (h2 : c ≠ ',') :
    parseFraction (c :: l) = (0, c :: l) := by
  cases l <;> simp [parseFraction, h1, h2]

theorem parseFraction_formatZone (z : Int) : parseFraction (formatZone z) = (0, formatZone z) := by
  unfold formatZone
  by_cases h0 : z = 0
  · rw [if_pos h0]; rfl
  · rw [if_neg h0]
    by_cases hn : z < 0
    · simp only [if_pos hn]
      exact parseFraction_other _ _ (by decide) (by decide)
    · simp only [if_neg hn]
      exact parseFraction_other _ _ (by decide) (by decide)

theorem isDigit_ne (c d : Char) (h : isDigit c = true) (hd : isDigit d = false) : c ≠ d := by
  rintro rfl
  rw [h] at hd
  exact Bool.noConfusion hd

theorem parseZone_formatZone (z : Int) (zone1 : Int) (rest : List Char)
    (h : parseZone (formatZone z) = .ok (zone1, rest)) : zone1 = z ∧ rest = [] := by
  unfold formatZone at h
  by_cases h0 : z = 0
  · rw [if_pos h0] at h
    simp only [parseZone, if_true, Except.ok.injEq, Prod.mk.injEq] at h
    exact ⟨by omega, h.2.symm⟩
  · rw [if_neg h0] at h
    simp only [] at h
    have hm : z.natAbs % 60 < 100 := by omega
    by_cases hh : z.natAbs / 60 < 100
    · rw [appendInt_two _ hh, appendInt_two _ hm] at h
      simp only [List.cons_append, List.nil_append] at h
      rw [parseZone] at h
      rw [getnum_digits _ _ (by omega) (by omega), getnum_digits _ _ (by omega) (by omega)] at h
      by_cases hn : z < 0
      · simp only [if_pos hn] at h
        rw [if_neg (by decide)] at h
        simp only [ne_eq, not_true_eq_false, if_false] at h
        split_ifs at h with a1 a2 a3
        · exact absurd a3 (by decide)
        · simp only [Except.ok.injEq, Prod.mk.injEq] at h
          exact ⟨by omega, h.2.symm⟩
      · simp only [if_neg hn] at h
        rw [if_neg (by decide)] at h
        simp only [ne_eq, not_true_eq_false, if_false] at h
        split_ifs at h with a1 a2
        simp only [Except.ok.injEq, Prod.mk.injEq] at h
        exact ⟨by omega, h.2.symm⟩
    · exfalso
      obtain ⟨hd, hl⟩ := appendInt_large (z.natAbs / 60) 2 2 (by omega) (by omega) (Or.inl rfl)
        (by omega) (by omega)
      generalize appendInt (↑(z.natAbs / 60)) 2 = ds at h hd hl
      match ds, hl, hd with
      | d1 :: d2 :: d3 :: tl, _, hd =>
        have h3 : isDigit d3 = true := hd d3 (by simp)
        have hne := isDigit_ne d3 ':' h3 (by decide)
        rw [appendInt_two _ hm] at h
        have hs : ¬ ((if z < 0 then '-' else '+') = 'Z') := by split_ifs <;> decide
        cases tl with
        | nil => simp [parseZone, hs, hne] at h
        | cons t1 tl =>
          cases tl with
          | nil => simp [parseZone, hs, hne] at h
          | cons t2 tl => simp [parseZone, hs, hne] at h

theorem parseYear_minus (l : List Char) : parseYear ('-' :: l) = .error "bad value" := by
  match l with
  | [] => rfl
  | [_] => rfl
  | [_, _] => rfl
  | _ :: _ :: _ :: _ => simp [parseYear, show isDigit '-' = false by decide]

theorem daysIn_le (m : Nat) (y : Int) (h1 : 1 ≤ m) (h12 : m ≤ 12) : daysIn m y ≤ 31 := by
  obtain ⟨t0, t1, t2, t3, t4, t5, t6, t7, t8, t9, t10, t11, t12⟩ := daysBefore_table
  unfold daysIn
  split_ifs
  · omega
  · interval_cases m <;>
      simp only [Nat.reduceSub, t0, t1, t2, t3, t4, t5, t6, t7, t8, t9, t10, t11, t12] <;> omega

theorem appendInt_neg (y : Int) (hy : y < 0) (w : Nat) :
    ∃ l, appendInt y w = '-' :: l := by
  unfold appendInt
  simp only [hy, if_true]
  split_ifs <;> simp

theorem Parse_Format (t u : Time) (h : ParseRFC3339 t.FormatRFC3339 = .ok u) :
    u = ⟨t.sec, 0, t.zone⟩ := by
  generalize hf : t.fields = f at h
  obtain ⟨y, m, d, hh, mi, s⟩ := f
  obtain ⟨m1, m12, d1, dIn, hh0, hh24, mi0, mi60, s0, s60, hDate⟩ := fields_spec t y m d hh mi s hf
  have d31 := daysIn_le m y m1 m12
  unfold Time.FormatRFC3339 at h
  rw [hf] at h
  simp only [ParseRFC3339] at h
  obtain ⟨d', rfl⟩ := Int.eq_ofNat_of_zero_le (show 0 ≤ d by omega)
  obtain ⟨hh', rfl⟩ := Int.eq_ofNat_of_zero_le hh0
  obtain ⟨mi', rfl⟩ := Int.eq_ofNat_of_zero_le mi0
  obtain ⟨s', rfl⟩ := Int.eq_ofNat_of_zero_le s0
  by_cases hy0 : y < 0
  · exfalso
    obtain ⟨l, hl⟩ := appendInt_neg y hy0 4
    rw [hl] at h
    simp only [List.cons_append, parseYear_minus, bind, Except.bind] at h
    exact Except.noConfusion h
  · obtain ⟨y', rfl⟩ := Int.eq_ofNat_of_zero_le (show 0 ≤ y by omega)
    by_cases hy1 : y' < 10000
    · rw [parseYear_appendInt _ hy1] at h
      simp only [bind, Except.bind, skipChar, if_true] at h
      rw [getnum_appendInt _ (by omega)] at h
      simp only [bind, Except.bind, skipChar, if_true] at h
      rw [if_neg (by omega)] at h
      rw [getnum_appendInt _ (by omega)] at h
      simp only [bind, Except.bind, skipChar, if_true] at h
      rw [getnum_appendInt _ (by omega)] at h
      simp only [bind, Except.bind, skipChar, if_true] at h
      rw [if_neg (by omega)] at h
      rw [getnum_appendInt _ (by omega)] at h
      simp only [bind, Except.bind, skipChar, if_true] at h
      rw [if_neg (by omega)] at h
      rw [getnum_appendInt _ (by omega)] at h
      simp only [bind, Except.bind, skipChar, if_true] at h
      rw [if_neg (by omega)] at h
      rw [parseFraction_formatZone] at h
      simp only [] at h
      generalize hz : parseZone (formatZone t.zone) = r at h
      match r, hz, h with
      | .error _, _, h => exact Except.noConfusion h
      | .ok (z1, rest), hz, h =>
        obtain ⟨rfl, rfl⟩ := parseZone_formatZone _ _ _ hz
        simp only [ne_eq, not_true_eq_false, if_false] at h
        rw [if_neg (by omega)] at h
        simp only [Except.ok.injEq] at h
        rw [← h]
        exact hDate 0
    · exfalso
      obtain ⟨hd, hl⟩ := appendInt_large y' 4 4 (by omega) (by omega) (Or.inr rfl)
        (by omega) (by omega)
      generalize appendInt (↑y') 4 = ds at h hd hl
      match ds, hl, hd with
      | a :: b :: c :: d :: e :: tl, _, hd =>
        have he : isDigit e = true := hd e (by simp)
        have hne := isDigit_ne e '-' he (by decide)
        simp only [List.cons_append, parseYear] at h
        split_ifs at h
        · simp [bind, Except.bind, skipChar, hne] at h
        · simp [bind, Except.bind] at h

/-! ## The name pattern -/

theorem regexpCompile_APPNAME_REG : regexpCompile APPNAME_REG = .ok appNameRegexp := by
  rfl

theorem iterate_charClass (f : MatchState → Option MatchState) (lo hi : Char)
    (hf : ∀ s, f s = (Regexp.charClass lo hi).run s) (n : Nat) (st : MatchState) :
    iterate f n st =
      if n ≤ st.rest.length ∧ ((st.rest.take n).all fun c => decide (lo ≤ c ∧ c ≤ hi)) = true then
        some { st with pos := st.pos + n, rest := st.rest.drop n }
      else none := by
  induction n generalizing st with
  | zero => simp [iterate]
  | succ n ih =>
    obtain ⟨pos, rest, caps⟩ := st
    cases rest with
    | nil => simp [iterate, hf, Regexp.run]
    | cons c rest =>
      simp only [iterate, hf, Regexp.run]
      by_cases hc : lo ≤ c ∧ c ≤ hi
      · rw [if_pos hc]
        simp only [ih]
        simp only [List.length_cons, Nat.add_le_add_iff_right, List.take_succ_cons, List.all_cons,
          hc, decide_True, Bool.true_and, List.drop_succ_cons, and_self]
        congr 3
        omega
      · rw [if_neg hc]
        simp only [List.take_succ_cons, List.all_cons, hc, decide_False, Bool.false_and]
        simp

theorem run_capture_class (cap n : Nat) (lo hi : Char) (st : MatchState) :
    (Regexp.capture cap (.repeatN n (.charClass lo hi))).run st =
      if n ≤ st.rest.length ∧ ((st.rest.take n).all fun c => decide (lo ≤ c ∧ c ≤ hi)) = true then
        some ⟨st.pos + n, st.rest.drop n, (cap, st.rest.take n) :: st.caps⟩
      else none := by
  rw [Regexp.run, Regexp.run, iterate_charClass _ lo hi (fun _ => rfl)]
  split_ifs
  · simp
  · rfl

theorem run_literal (runes : List Char) (st : MatchState) :
    (Regexp.literal runes).run st =
      if runes.isPrefixOf st.rest = true then
        some ⟨st.pos + runes.length, st.rest.drop runes.length, st.caps⟩
      else none := by
  rw [Regexp.run]

theorem run_concat (a b : Regexp) (st : MatchState) :
    (Regexp.concat a b).run st = (a.run st).bind b.run := by
  rw [Regexp.run]
  cases a.run st <;> rfl

theorem all_class_iff (l : List Char) :
    (l.all fun c => decide ('0' ≤ c ∧ c ≤ '9')) = true ↔ allDigits l := by
  simp [allDigits, isDigit]

theorem isPrefixOf_append (p t : List Char) : p.isPrefixOf (p ++ t) = true := by
  induction p with
  | nil => simp [List.isPrefixOf]
  | cons x p ih => simp [List.isPrefixOf, ih]

theorem run_literal_append (p t : List Char) (pos : Nat) (caps : List (Nat × List Char)) :
    (Regexp.literal p).run ⟨pos, p ++ t, caps⟩ = some ⟨pos + p.length, t, caps⟩ := by
  rw [run_literal]
  simp only [isPrefixOf_append, if_true, List.drop_left]

theorem run_literal_cons (x : Char) (t : List Char) (pos : Nat) (caps : List (Nat × List Char)) :
    (Regexp.literal [x]).run ⟨pos, x :: t, caps⟩ = some ⟨pos + 1, t, caps⟩ :=
  run_literal_append [x] t pos caps

theorem run_appName_of_form (a b c : List Char) (ha : a.length = 12) (hb : b.length = 4)
    (hc : c.length = 2) (da : allDigits a) (db : allDigits b) (dc : allDigits c) :
    appNameRegexp.run ⟨0, "aws-reconciler-production-".data ++ (a ++ '-' :: (b ++ '-' :: c)), []⟩
      = some ⟨46, [], [(3, c), (2, b), (1, a)]⟩ := by
  have ta : (a ++ '-' :: (b ++ '-' :: c)).take 12 = a := by rw [← ha]; exact List.take_left _ _
  have dra : (a ++ '-' :: (b ++ '-' :: c)).drop 12 = '-' :: (b ++ '-' :: c) := by
    rw [← ha]; exact List.drop_left _ _
  have tb : (b ++ '-' :: c).take 4 = b := by rw [← hb]; exact List.take_left _ _
  have drb : (b ++ '-' :: c).drop 4 = '-' :: c := by rw [← hb]; exact List.drop_left _ _
  have tc : c.take 2 = c := by rw [← hc]; exact List.take_length _
  have drc : c.drop 2 = [] := by rw [← hc]; exact List.drop_length _
  have la : 12 ≤ (a ++ '-' :: (b ++ '-' :: c)).length := by simp; omega
  have lb : 4 ≤ (b ++ '-' :: c).length := by simp; omega
  have lc : 2 ≤ c.length := by omega
  have da' := (all_class_iff a).2 da
  have db' := (all_class_iff b).2 db
  have dc' := (all_class_iff c).2 dc
  unfold appNameRegexp
  rw [run_concat, Regexp.run]
  simp only [if_true, Option.bind]
  rw [run_concat, run_literal_append]
  simp only [Option.bind]
  rw [run_concat, run_capture_class]
  simp only [ta, dra, la, da', and_self, if_true, Option.bind]
  rw [run_concat, run_literal_cons]
  simp only [Option.bind]
  rw [run_concat, run_capture_class]
  simp only [tb, drb, lb, db', and_self, if_true, Option.bind]
  rw [run_concat, run_literal_cons]
  simp only [Option.bind]
  rw [run_concat, run_capture_class]
  simp only [tc, drc, lc, dc', and_self, if_true, Option.bind]
  rw [Regexp.run]
  simp

theorem prefix_of_isPrefixOf (p l : List Char) (h : p.isPrefixOf l = true) :
    l = p ++ l.drop p.length := by
  induction p generalizing l with
  | nil => simp
  | cons x p ih =>
    cases l with
    | nil => simp [List.isPrefixOf] at h
    | cons y l =>
      simp only [List.isPrefixOf, Bool.and_eq_true, beq_iff_eq] at h
      obtain ⟨rfl, h⟩ := h
      simp only [List.length_cons, List.drop_succ_cons, List.cons_append]
      rw [← ih l h]

theorem form_of_run_appName (text : List Char) (st : MatchState)
    (h : appNameRegexp.run ⟨0, text, []⟩ = some st) :
    ∃ a b c : List Char, a.length = 12 ∧ b.length = 4 ∧ c.length = 2 ∧
      allDigits a ∧ allDigits b ∧ allDigits c ∧
      text = "aws-reconciler-production-".data ++ (a ++ '-' :: (b ++ '-' :: c)) := by
  unfold appNameRegexp at h
  rw [run_concat, Regexp.run] at h
  simp only [if_true, Option.bind] at h
  rw [run_concat, run_literal] at h
  by_cases h1 : ("aws-reconciler-production-".data).isPrefixOf text = true
  · have e1 := prefix_of_isPrefixOf _ _ h1
    generalize text.drop ("aws-reconciler-production-".data).length = t1 at e1 h
    simp only [h1, if_true, Option.bind] at h
    rw [run_concat, run_capture_class] at h
    simp only [] at h
    by_cases h2 : 12 ≤ t1.length ∧ ((t1.take 12).all fun c => decide ('0' ≤ c ∧ c ≤ '9')) = true
    · simp only [h2, and_self, if_true, Option.bind] at h
      have e2 : t1 = t1.take 12 ++ t1.drop 12 := (List.take_append_drop 12 t1).symm
      have l2 : (t1.take 12).length = 12 := by simp; omega
      generalize t1.take 12 = a at e2 l2 h2 h
      generalize t1.drop 12 = t2 at e2 h
      rw [run_concat, run_literal] at h
      by_cases h3 : (['-'] : List Char).isPrefixOf t2 = true
      · have e3 := prefix_of_isPrefixOf _ _ h3
        generalize t2.drop (['-'] : List Char).length = t3 at e3 h
        simp only [h3, if_true, Option.bind] at h
        rw [run_concat, run_capture_class] at h
        simp only [] at h
        by_cases h4 : 4 ≤ t3.length ∧ ((t3.take 4).all fun c => decide ('0' ≤ c ∧ c ≤ '9')) = true
        · simp only [h4, and_self, if_true, Option.bind] at h
          have e4 : t3 = t3.take 4 ++ t3.drop 4 := (List.take_append_drop 4 t3).symm
          have l4 : (t3.take 4).length = 4 := by simp; omega
          generalize t3.take 4 = b at e4 l4 h4 h
          generalize t3.drop 4 = t4 at e4 h
          rw [run_concat, run_literal] at h
          by_cases h5 : (['-'] : List Char).isPrefixOf t4 = true
          · have e5 := prefix_of_isPrefixOf _ _ h5
            generalize t4.drop (['-'] : List Char).length = t5 at e5 h
            simp only [h5, if_true, Option.bind] at h
            rw [run_concat, run_capture_class] at h
            simp only [] at h
            by_cases h6 : 2 ≤ t5.length ∧
                ((t5.take 2).all fun c => decide ('0' ≤ c ∧ c ≤ '9')) = true
            · simp only [h6, and_self, if_true, Option.bind] at h
              rw [Regexp.run] at h
              simp only [] at h
              by_cases h7 : t5.drop 2 = []
              · have l6 : t5.length = 2 := by
                  have := congrArg List.length h7
                  simp at this
                  omega
                have e6 : t5.take 2 = t5 := by rw [← l6]; exact List.take_length _
                rw [e6] at h6
                refine ⟨a, b, t5, l2, l4, l6, (all_class_iff a).1 h2.2, (all_class_iff b).1 h4.2,
                  (all_class_iff t5).1 h6.2, ?_⟩
                rw [e1, e2, e3, e4, e5]
                simp
              · simp [h7] at h
            · rw [if_neg h6] at h; simp at h
          · simp [h5] at h
        · rw [if_neg h4] at h; simp at h
      · simp [h3] at h
    · rw [if_neg h2] at h; simp at h
  · simp [h1] at h

theorem run_appName_pos (pos : Nat) (text : List Char) (caps : List (Nat × List Char)) :
    appNameRegexp.run ⟨pos + 1, text, caps⟩ = none := by
  unfold appNameRegexp
  rw [run_concat, Regexp.run]
  simp

theorem search_appName_pos (pos : Nat) (l : List Char) :
    appNameRegexp.search (pos + 1) l = none := by
  induction l generalizing pos with
  | nil => simp [Regexp.search, run_appName_pos]
  | cons c l ih => simp [Regexp.search, run_appName_pos, ih]

theorem search_appName (text : List Char) :
    appNameRegexp.search 0 text =
      match appNameRegexp.run ⟨0, text, []⟩ with
      | some st => some (text, 0, st)
      | none => none := by
  cases text with
  | nil => simp only [Regexp.search]
  | cons c l =>
    simp only [Regexp.search]
    cases appNameRegexp.run ⟨0, c :: l, []⟩ with
    | some st => rfl
    | none => exact search_appName_pos 0 l

theorem NameForm_data (name master year month : String) (h : NameForm name master year month) :
    name.data = "aws-reconciler-production-".data ++
      (master.data ++ '-' :: (year.data ++ '-' :: month.data)) := by
  obtain ⟨-, -, -, -, -, -, rfl⟩ := h
  simp [String.data_append]

theorem MatchString_iff (name : String) :
    appNameRegexp.MatchString name = true ↔ ∃ master year month, NameForm name master year month := by
  unfold Regexp.MatchString
  rw [search_appName]
  constructor
  · intro h
    generalize hr : appNameRegexp.run ⟨0, name.data, []⟩ = r at h
    cases r with
    | none => simp at h
    | some st =>
      obtain ⟨a, b, c, ha, hb, hc, da, db, dc, e⟩ := form_of_run_appName _ _ hr
      refine ⟨⟨a⟩, ⟨b⟩, ⟨c⟩, ha, hb, hc, da, db, dc, ?_⟩
      apply String.ext
      simp [String.data_append, e]
  · rintro ⟨master, year, month, h⟩
    rw [NameForm_data _ _ _ _ h]
    obtain ⟨ha, hb, hc, da, db, dc, -⟩ := h
    rw [run_appName_of_form _ _ _ ha hb hc da db dc]
    rfl

theorem FindStringSubmatch_form (name master year month : String)
    (h : NameForm name master year month) :
    appNameRegexp.FindStringSubmatch name = [name, master, year, month] := by
  have hdata := NameForm_data _ _ _ _ h
  unfold Regexp.FindStringSubmatch
  rw [search_appName, hdata]
  obtain ⟨ha, hb, hc, da, db, dc, e⟩ := h
  have hlen : name.data.length = 46 := by
    rw [hdata]
    simp only [String.length] at ha hb hc
    simp [ha, hb, hc]
  rw [run_appName_of_form _ _ _ ha hb hc da db dc]
  have hn : appNameRegexp.NumSubexp = 3 := by decide
  simp only [hn]
  have hl : (List.range 3) = [0, 1, 2] := by decide
  rw [hl]
  simp only [List.map, capText, List.find?, Nat.sub_zero]
  simp only [decide_True, decide_False, Nat.reduceAdd, Nat.reduceEqDiff]
  refine congrArg₂ List.cons ?_ rfl
  apply String.ext
  change List.take 46 ("aws-reconciler-production-".data ++
    (master.data ++ '-' :: (year.data ++ '-' :: month.data))) = name.data
  rw [← hdata]
  exact List.take_of_length_le (by omega)

theorem FindStringSubmatch_length (re : Regexp) (name : String) (h : re.MatchString name = true) :
    (re.FindStringSubmatch name).length = re.NumSubexp + 1 := by
  unfold Regexp.MatchString at h
  unfold Regexp.FindStringSubmatch
  cases hs : re.search 0 name.data with
  | none => rw [hs] at h; simp at h
  | some r => simp

/-! ## The loop of `writeUpdate` -/

theorem matchesPattern_eq (name : String) : matchesPattern name = appNameRegexp.MatchString name := by
  unfold matchesPattern
  rw [regexpCompile_APPNAME_REG]

theorem submatch_eq (name : String) (i : Nat) :
    submatch name i = (appNameRegexp.FindStringSubmatch name).getD i "" := by
  unfold submatch
  rw [regexpCompile_APPNAME_REG]

theorem loopBody_eq (env : Env) (m : Time) (st : LoopState) (w : Workflow)
    (hp : st.panicked = false) :
    loopBody env appNameRegexp m st w =
      if accepts m w = true then
        ⟨later st.lastMod w.LastModTime.Time,
          st.trace ++ [.writeRow (rowOf w) (env.writeErr st.trace.length)], false⟩
      else st := by
  unfold loopBody accepts
  rw [if_neg (by simp [hp]), matchesPattern_eq]
  by_cases ha : (appNameRegexp.MatchString w.AppName && m.Before w.LastModTime.Time) = true
  · rw [if_pos ha, if_pos ha]
    have hm : appNameRegexp.MatchString w.AppName = true := by
      simp only [Bool.and_eq_true] at ha; exact ha.1
    have hl := FindStringSubmatch_length _ _ hm
    have hn : appNameRegexp.NumSubexp = 3 := by decide
    rw [hn] at hl
    simp only [rowOf, submatch_eq, later]
    generalize appNameRegexp.FindStringSubmatch w.AppName = parts at hl
    match parts, hl with
    | [p0, p1, p2, p3], _ => rfl
  · rw [if_neg ha, if_neg ha]

theorem loop_eq (env : Env) (m : Time) (ws : List Workflow) (st : LoopState)
    (hp : st.panicked = false) :
    ws.foldl (loopBody env appNameRegexp m) st =
      ⟨latest st.lastMod ((ws.filter (accepts m)).map fun w => w.LastModTime.Time),
        st.trace ++ rowEvents env st.trace.length (ws.filter (accepts m)), false⟩ := by
  induction ws generalizing st with
  | nil =>
    obtain ⟨lm, tr, p⟩ := st
    simp only at hp
    simp [latest, rowEvents, hp]
  | cons w ws ih =>
    rw [List.foldl_cons, loopBody_eq env m st w hp]
    by_cases ha : accepts m w = true
    · rw [if_pos ha, ih _ rfl]
      simp [List.filter_cons, ha, latest, rowEvents]
    · rw [if_neg ha, ih _ hp]
      simp [List.filter_cons, ha]

theorem writeUpdate_eq (env : Env) (fs : FS) (jobs : Jobs) (dir : String) (m : Time) :
    writeUpdate env fs jobs dir m =
      match env.createErr with
      | some err =>
        ⟨.error ("cannot create output file:" ++ err),
          [.create dir (env.now.InUTC.FormatFilename ++ ".csv") (some err)], fs⟩
      | none =>
        match env.markerErr with
        | some (err, left) =>
          ⟨.error ("failed to write marker:" ++ err),
            [.create dir (env.now.InUTC.FormatFilename ++ ".csv") none,
                .writeRow header (env.writeErr 1)] ++
              rowEvents env 2 (jobs.Workflows.filter (accepts m)) ++
              [.writeFile dir "_marker" (latest m ((jobs.Workflows.filter (accepts m)).map
                fun w => w.LastModTime.Time)).FormatRFC3339 (some err),
                .flush env.flushErr, .close],
            Function.update fs dir left⟩
        | none =>
          ⟨.ok,
            [.create dir (env.now.InUTC.FormatFilename ++ ".csv") none,
                .writeRow header (env.writeErr 1)] ++
              rowEvents env 2 (jobs.Workflows.filter (accepts m)) ++
              [.writeFile dir "_marker" (latest m ((jobs.Workflows.filter (accepts m)).map
                fun w => w.LastModTime.Time)).FormatRFC3339 none,
                .flush env.flushErr, .close],
            Function.update fs dir (.content (latest m ((jobs.Workflows.filter (accepts m)).map
                fun w => w.LastModTime.Time)).FormatRFC3339)⟩ := by
  unfold writeUpdate
  rw [regexpCompile_APPNAME_REG]
  simp only []
  cases env.createErr with
  | some err => rfl
  | none =>
    simp only []
    rw [loop_eq env m jobs.Workflows _ rfl]
    simp only [Bool.false_eq_true, if_false, List.length_cons, List.length_nil, Nat.reduceAdd,
      zero_add]

theorem rows_rowEvents (env : Env) (k : Nat) (ws : List Workflow) :
    (rowEvents env k ws).filterMap (fun e =>
      match e with
      | .writeRow record _ => some record
      | _ => none) = ws.map rowOf := by
  induction ws generalizing k with
  | nil => rfl
  | cons w ws ih => simp [rowEvents, ih]

theorem writeUpdate_rows (env : Env) (fs : FS) (jobs : Jobs) (dir : String) (m : Time)
    (h : env.createErr = none) :
    (writeUpdate env fs jobs dir m).rows =
      header :: (jobs.Workflows.filter (accepts m)).map rowOf := by
  rw [writeUpdate_eq, h]
  simp only []
  cases env.markerErr <;> simp [Run.rows, List.filterMap_append, rows_rowEvents]

/-! ## The order of instants -/

theorem Before_iff (a b : Time) :
    a.Before b = true ↔ a.sec < b.sec ∨ (a.sec = b.sec ∧ a.nsec < b.nsec) := by
  simp [Time.Before]

theorem not_Before_self (a : Time) : ¬ a.Before a = true := by
  rw [Before_iff]; omega

theorem not_Before_trans (a b c : Time) (h1 : ¬ b.Before a = true) (h2 : ¬ c.Before b = true) :
    ¬ c.Before a = true := by
  rw [Before_iff] at *; omega

theorem later_ge_left (a b : Time) : ¬ (later a b).Before a = true := by
  unfold later
  split_ifs with h
  · rw [Before_iff] at *; omega
  · exact not_Before_self a

theorem later_ge_right (a b : Time) : ¬ (later a b).Before b = true := by
  unfold later
  split_ifs with h
  · exact not_Before_self b
  · exact h

theorem latest_ge_init (w : Time) (ts : List Time) : ¬ (latest w ts).Before w = true := by
  induction ts generalizing w with
  | nil => exact not_Before_self w
  | cons t ts ih =>
    exact not_Before_trans _ _ _ (later_ge_left w t) (ih (later w t))

theorem latest_ge_mem (w : Time) (ts : List Time) (t : Time) (ht : t ∈ ts) :
    ¬ (latest w ts).Before t = true := by
  induction ts generalizing w with
  | nil => simp at ht
  | cons x ts ih =>
    rcases List.mem_cons.1 ht with rfl | h
    · exact not_Before_trans _ _ _ (later_ge_right w t) (latest_ge_init (later w t) ts)
    · exact ih (later w x) h

theorem latest_mem (w : Time) (ts : List Time) : latest w ts = w ∨ latest w ts ∈ ts := by
  induction ts generalizing w with
  | nil => exact Or.inl rfl
  | cons x ts ih =>
    have e : latest w (x :: ts) = latest (later w x) ts := rfl
    rw [e]
    rcases ih (later w x) with h | h
    · rw [h]
      unfold later
      split_ifs
      · exact Or.inr (List.mem_cons_self _ _)
      · exact Or.inl rfl
    · exact Or.inr (List.mem_cons_of_mem _ h)

/-! ## Properties of a pass -/

/-- C1: for every record set `pre ++ r :: suf`, every watermark `markerTime`
read at the start of the pass and every record `r` of the set, whatever its
position and whatever precedes it, `writeUpdate` writes the row of `r` exactly
when its `appName` matches the pattern and its `lastModTime` is strictly later
than `markerTime`; the rows of the other records do not depend on `r`.  In
particular a record whose `lastModTime` is the instant `markerTime` is not
written. -/
theorem writeUpdate_selects (env : Env) (fs : FS) (total len offset : Int)
    (pre suf : List Workflow) (r : Workflow) (dir : String) (markerTime : Time)
    (h : env.createErr = none) :
    (writeUpdate env fs ⟨total, pre ++ r :: suf, len, offset⟩ dir markerTime).rows =
        header :: ((pre.filter (accepts markerTime)).map rowOf ++
          (if matchesPattern r.AppName = true ∧ markerTime.Before r.LastModTime.Time = true
            then [rowOf r] else []) ++
          (suf.filter (accepts markerTime)).map rowOf) ∧
      (r.LastModTime.Time.sec = markerTime.sec → r.LastModTime.Time.nsec = markerTime.nsec →
        (writeUpdate env fs ⟨total, pre ++ r :: suf, len, offset⟩ dir markerTime).rows =
          header :: ((pre.filter (accepts markerTime)).map rowOf ++
            (suf.filter (accepts markerTime)).map rowOf)) := by
  rw [writeUpdate_rows _ _ _ _ _ h]
  simp only [List.filter_append, List.filter_cons, List.map_append]
  have hacc : accepts markerTime r =
      (matchesPattern r.AppName && markerTime.Before r.LastModTime.Time) := rfl
  constructor
  · by_cases ha : matchesPattern r.AppName = true ∧ markerTime.Before r.LastModTime.Time = true
    · have : accepts markerTime r = true := by rw [hacc, ha.1, ha.2]; rfl
      simp [this, ha]
    · have : ¬ accepts markerTime r = true := by
        rw [hacc, Bool.and_eq_true]; exact ha
      simp [this, ha]
  · intro h1 h2
    have : ¬ accepts markerTime r = true := by
      rw [hacc, Bool.and_eq_true, Before_iff]
      omega
    simp [this]

/-- An instance of C1: a lone matching record later than the sentinel watermark
is written. -/
theorem writeUpdate_selects_witness :
    exampleEnv.createErr = none ∧
      (writeUpdate exampleEnv noMarker
        ⟨1, [] ++ exampleWorkflow (Date 2023 7 1 0 0 0 0 0) :: [], 1, 0⟩ "out" sentinel).rows =
        [header, rowOf (exampleWorkflow (Date 2023 7 1 0 0 0 0 0))] :=
  ⟨rfl, by
    have h := (writeUpdate_selects exampleEnv noMarker 1 1 0 [] []
      (exampleWorkflow (Date 2023 7 1 0 0 0 0 0)) "out" sentinel rfl).1
    rw [h]
    decide⟩

/-- C10, as the claim states it, fails: the header row that the program writes
does not carry the column names of the claim. -/
theorem header_names_counterexample :
    (writeUpdate exampleEnv noMarker ⟨0, [], 0, 0⟩ "out" sentinel).rows ≠
      [["id", "name", "tenant-id", "year", "month", "status", "createdAt", "lastModifiedAt",
        "endedAt"]] := by
  decide

/-- C10, amended: whenever the output file is created, the records handed to
the CSV writer are the fixed header `id, appName, master, year, month, status,
createdTime, lastModTime, endTime` followed by one nine-field row per accepted
record, in the order of the source; with no accepted record the header stands
alone. -/
theorem artifact_rows (env : Env) (fs : FS) (jobs : Jobs) (dir : String) (markerTime : Time)
    (h : env.createErr = none) :
    (writeUpdate env fs jobs dir markerTime).rows =
        ["id", "appName", "master", "year", "month", "status", "createdTime", "lastModTime",
          "endTime"] ::
          (jobs.Workflows.filter (accepts markerTime)).map (fun w =>
            [w.Id, w.AppName, submatch w.AppName 1, submatch w.AppName 2, submatch w.AppName 3,
              w.Status, w.CreatedTime.Time.FormatRFC3339, w.LastModTime.Time.FormatRFC3339,
              w.EndTime.Time.FormatRFC3339]) ∧
      (∀ row ∈ (writeUpdate env fs jobs dir markerTime).rows, row.length = 9) ∧
      ((∀ w ∈ jobs.Workflows, accepts markerTime w = false) →
        (writeUpdate env fs jobs dir markerTime).rows =
          [["id", "appName", "master", "year", "month", "status", "createdTime", "lastModTime",
            "endTime"]]) := by
  rw [writeUpdate_rows _ _ _ _ _ h]
  refine ⟨rfl, ?_, ?_⟩
  · intro row hrow
    rcases List.mem_cons.1 hrow with rfl | hrow
    · rfl
    · obtain ⟨w, -, rfl⟩ := List.mem_map.1 hrow
      rfl
  · intro hall
    have : jobs.Workflows.filter (accepts markerTime) = [] := by
      rw [List.filter_eq_nil_iff]
      intro w hw
      rw [hall w hw]
      exact Bool.false_ne_true
    rw [this]
    rfl

/-- An instance of amended C10: one accepted and one stale record give the
header and one row. -/
theorem artifact_rows_witness :
    exampleEnv.createErr = none ∧
      (writeUpdate exampleEnv noMarker
        ⟨2, [exampleWorkflow (Date 2023 7 1 0 0 0 0 0), exampleWorkflow (Date 1999 7 1 0 0 0 0 0)],
          2, 0⟩ "out" sentinel).rows =
        [["id", "appName", "master", "year", "month", "status", "createdTime", "lastModTime",
            "endTime"],
          ["0000001-230701000000000-oozie-oozi-W",
            "aws-reconciler-production-123456789012-2023-07", "123456789012", "2023", "07",
            "SUCCEEDED", "0001-01-01T00:00:00Z", "2023-07-01T00:00:00Z",
            "0001-01-01T00:00:00Z"]] :=
  ⟨rfl, by
    have h := (artifact_rows exampleEnv noMarker
      ⟨2, [exampleWorkflow (Date 2023 7 1 0 0 0 0 0), exampleWorkflow (Date 1999 7 1 0 0 0 0 0)],
        2, 0⟩ "out" sentinel rfl).1
    rw [h]
    decide⟩

/-- C7: when the name of a record is the prefix `aws-reconciler-production-`
followed by twelve digits, a dash, four digits, a dash and two digits, the row
written for it (once it is later than the watermark) carries those twelve, four
and two digits as master, year and month; a record whose name has any other
form is written for no watermark; and `writeUpdate` never panics on an index
out of range.  The name of the example decomposes into `123456789012`, `2023`
and `07`. -/
theorem name_decomposition (env : Env) (fs : FS) (total len offset : Int)
    (pre suf : List Workflow) (r : Workflow) (dir : String) (markerTime : Time)
    (h : env.createErr = none) :
    (∀ master year month : String, NameForm r.AppName master year month →
      markerTime.Before r.LastModTime.Time = true →
      (writeUpdate env fs ⟨total, pre ++ r :: suf, len, offset⟩ dir markerTime).rows =
        header :: ((pre.filter (accepts markerTime)).map rowOf ++
          [[r.Id, r.AppName, master, year, month, r.Status, r.CreatedTime.Time.FormatRFC3339,
            r.LastModTime.Time.FormatRFC3339, r.EndTime.Time.FormatRFC3339]] ++
          (suf.filter (accepts markerTime)).map rowOf)) ∧
    ((¬ ∃ master year month : String, NameForm r.AppName master year month) →
      (writeUpdate env fs ⟨total, pre ++ r :: suf, len, offset⟩ dir markerTime).rows =
        header :: ((pre.filter (accepts markerTime)).map rowOf ++
          (suf.filter (accepts markerTime)).map rowOf)) ∧
    (∀ msg, (writeUpdate env fs ⟨total, pre ++ r :: suf, len, offset⟩ dir markerTime).result ≠
      .panic msg) ∧
    NameForm "aws-reconciler-production-123456789012-2023-07" "123456789012" "2023" "07" := by
  rw [writeUpdate_rows _ _ _ _ _ h]
  simp only [List.filter_append, List.filter_cons, List.map_append]
  have hacc : accepts markerTime r =
      (matchesPattern r.AppName && markerTime.Before r.LastModTime.Time) := rfl
  refine ⟨?_, ?_, ?_, ?_⟩
  · intro master year month hf hb
    have hm : matchesPattern r.AppName = true := by
      rw [matchesPattern_eq, MatchString_iff]
      exact ⟨master, year, month, hf⟩
    have : accepts markerTime r = true := by rw [hacc, hm, hb]; rfl
    have hrow : rowOf r = [r.Id, r.AppName, master, year, month, r.Status,
        r.CreatedTime.Time.FormatRFC3339, r.LastModTime.Time.FormatRFC3339,
        r.EndTime.Time.FormatRFC3339] := by
      simp only [rowOf, submatch_eq, FindStringSubmatch_form _ _ _ _ hf]
      rfl
    simp [this, hrow]
  · intro hn
    have hm : ¬ matchesPattern r.AppName = true := by
      rw [matchesPattern_eq, MatchString_iff]
      exact hn
    have : ¬ accepts markerTime r = true := by
      rw [hacc, Bool.and_eq_true]
      exact fun hh => hm hh.1
    simp [this]
  · intro msg
    rw [writeUpdate_eq, h]
    simp only []
    cases env.markerErr <;> simp
  · unfold NameForm allDigits
    decide

/-- An instance of C7: the example name, accepted against the sentinel
watermark, is written with master `123456789012`, year `2023` and month `07`. -/
theorem name_decomposition_witness :
    exampleEnv.createErr = none ∧
      NameForm (exampleWorkflow (Date 2023 7 1 0 0 0 0 0)).AppName "123456789012" "2023" "07" ∧
      sentinel.Before (exampleWorkflow (Date 2023 7 1 0 0 0 0 0)).LastModTime.Time = true ∧
      (writeUpdate exampleEnv noMarker
        ⟨1, [] ++ exampleWorkflow (Date 2023 7 1 0 0 0 0 0) :: [], 1, 0⟩ "out" sentinel).rows =
        [header,
          ["0000001-230701000000000-oozie-oozi-W",
            "aws-reconciler-production-123456789012-2023-07", "123456789012", "2023", "07",
            "SUCCEEDED", "0001-01-01T00:00:00Z", "2023-07-01T00:00:00Z",
            "0001-01-01T00:00:00Z"]] :=
  ⟨rfl, by unfold NameForm allDigits; decide, by decide, by
    have h := (name_decomposition exampleEnv noMarker 1 1 0 [] []
      (exampleWorkflow (Date 2023 7 1 0 0 0 0 0)) "out" sentinel rfl).1 "123456789012" "2023" "07"
      (by unfold NameForm allDigits; decide) (by decide)
    rw [h]
    decide⟩

/-- C2, as the claim states it, fails: with no accepted record and a loaded
watermark of `2000-01-01T00:00:00.5Z` (a text that `time.Parse` accepts), the
marker written is `2000-01-01T00:00:00Z`, an instant strictly before the loaded
watermark. -/
theorem persisted_watermark_counterexample :
    (writeUpdate exampleEnv noMarker ⟨0, [], 0, 0⟩ "out" ⟨63082281600, 500000000, 0⟩).fs "out" =
        .content "2000-01-01T00:00:00Z" ∧
      ParseRFC3339 "2000-01-01T00:00:00.5Z" = .ok ⟨63082281600, 500000000, 0⟩ ∧
      ParseRFC3339 "2000-01-01T00:00:00Z" = .ok ⟨63082281600, 0, 0⟩ ∧
      Time.Before ⟨63082281600, 0, 0⟩ ⟨63082281600, 500000000, 0⟩ = true := by
  refine ⟨?_, rfl, rfl, rfl⟩
  rw [writeUpdate_eq]
  decide

/-- C2, amended: when the pass runs to its end, the marker holds the RFC3339
text of `M`, the latest of the loaded watermark and the `lastModTime` of every
accepted record (so `M` is the watermark itself when nothing is accepted, and
the `lastModTime` of the single accepted record when there is one).  The text
has whole seconds only: read back, it is the instant `M` without its fraction
of a second. -/
theorem persisted_watermark (env : Env) (fs : FS) (jobs : Jobs) (dir : String)
    (markerTime : Time) (h1 : env.createErr = none) (h2 : env.markerErr = none) :
    ∃ M : Time,
      (writeUpdate env fs jobs dir markerTime).fs dir = .content M.FormatRFC3339 ∧
      ¬ M.Before markerTime = true ∧
      (∀ w ∈ jobs.Workflows, accepts markerTime w = true →
        ¬ M.Before w.LastModTime.Time = true) ∧
      (M = markerTime ∨
        ∃ w ∈ jobs.Workflows, accepts markerTime w = true ∧ M = w.LastModTime.Time) ∧
      ((∀ w ∈ jobs.Workflows, accepts markerTime w = false) → M = markerTime) ∧
      (∀ w, jobs.Workflows.filter (accepts markerTime) = [w] → M = w.LastModTime.Time) ∧
      (∀ u, ParseRFC3339 M.FormatRFC3339 = .ok u → u = ⟨M.sec, 0, M.zone⟩) := by
  refine ⟨latest markerTime ((jobs.Workflows.filter (accepts markerTime)).map
    fun w => w.LastModTime.Time), ?_, latest_ge_init _ _, ?_, ?_, ?_, ?_,
    fun u hu => Parse_Format _ _ hu⟩
  · rw [writeUpdate_eq, h1, h2]
    simp
  · intro w hw ha
    apply latest_ge_mem
    exact List.mem_map.2 ⟨w, List.mem_filter.2 ⟨hw, ha⟩, rfl⟩
  · rcases latest_mem markerTime ((jobs.Workflows.filter (accepts markerTime)).map
      fun w => w.LastModTime.Time) with h | h
    · exact Or.inl h
    · obtain ⟨w, hw, e⟩ := List.mem_map.1 h
      obtain ⟨hw1, hw2⟩ := List.mem_filter.1 hw
      exact Or.inr ⟨w, hw1, hw2, e.symm⟩
  · intro hall
    have : jobs.Workflows.filter (accepts markerTime) = [] := by
      rw [List.filter_eq_nil_iff]
      intro w hw
      rw [hall w hw]
      exact Bool.false_ne_true
    rw [this]
    rfl
  · intro w hw
    have hmem : w ∈ jobs.Workflows.filter (accepts markerTime) := by rw [hw]; simp
    have hacc := (List.mem_filter.1 hmem).2
    have hb : markerTime.Before w.LastModTime.Time = true := by
      unfold accepts at hacc
      rw [Bool.and_eq_true] at hacc
      exact hacc.2
    rw [hw]
    simp [latest, later, hb]

/-- An instance of amended C2: from the sentinel watermark and one accepted
record the marker becomes the `lastModTime` of that record. -/
theorem persisted_watermark_witness :
    exampleEnv.createErr = none ∧ exampleEnv.markerErr = none ∧
      ∃ M : Time,
        (writeUpdate exampleEnv noMarker ⟨1, [exampleWorkflow (Date 2023 7 1 0 0 0 0 0)], 1, 0⟩
          "out" sentinel).fs "out" = .content M.FormatRFC3339 ∧
        (M = sentinel ∨ ∃ w ∈ [exampleWorkflow (Date 2023 7 1 0 0 0 0 0)],
          accepts sentinel w = true ∧ M = w.LastModTime.Time) :=
  ⟨rfl, rfl, by
    obtain ⟨M, a, -, -, b, -, -, -⟩ := persisted_watermark exampleEnv noMarker
      ⟨1, [exampleWorkflow (Date 2023 7 1 0 0 0 0 0)], 1, 0⟩ "out" sentinel rfl rfl
    exact ⟨M, a, b⟩⟩

/-- C3, as the claim states it, fails: against a watermark earlier than the
zero instant (here `0000-01-01T00:00:00Z`, as `readMarker` returns it for a
marker with that text), a record whose `lastModTime` was decoded from `null` is
written, and the marker becomes the zero instant. -/
theorem null_lastModTime_counterexample :
    CustomTime.UnmarshalJSON ParseTimeLayout "null" = .ok ⟨Time.zero⟩ ∧
      readMarker (fun _ => .content "0000-01-01T00:00:00Z") "out" = .ok (Date 0 1 1 0 0 0 0 0) ∧
      (writeUpdate exampleEnv noMarker ⟨1, [exampleWorkflow Time.zero], 1, 0⟩ "out"
        (Date 0 1 1 0 0 0 0 0)).rows = [header, rowOf (exampleWorkflow Time.zero)] ∧
      (writeUpdate exampleEnv noMarker ⟨1, [exampleWorkflow Time.zero], 1, 0⟩ "out"
        (Date 0 1 1 0 0 0 0 0)).fs "out" = .content "0001-01-01T00:00:00Z" := by
  refine ⟨rfl, rfl, ?_, ?_⟩
  · rw [writeUpdate_rows _ _ _ _ _ rfl]
    decide
  · rw [writeUpdate_eq]
    decide

theorem UnmarshalJSON_null (parseLayout : String → Except String Time) (b : String)
    (hb : b = "null" ∨ b = "\"null\"") :
    CustomTime.UnmarshalJSON parseLayout b = .ok ⟨Time.zero⟩ := by
  have : stringsTrim b "\"" = "null" := by
    rcases hb with rfl | rfl <;> decide
  unfold CustomTime.UnmarshalJSON
  simp only [this, if_true]

/-- C3, amended: against every watermark that is not earlier than the zero
instant `0001-01-01T00:00:00Z` (the sentinel and every watermark read from a
marker of year 1 or later are such), a record whose `lastModTime` was decoded
from `null` is not selected: the whole run, its rows and the marker it leaves
included, is the run without that record. -/
theorem null_lastModTime_skipped (parseLayout : String → Except String Time) (b : String)
    (env : Env) (fs : FS) (total len offset : Int) (pre suf : List Workflow) (r : Workflow)
    (dir : String) (markerTime : Time) (hb : b = "null" ∨ b = "\"null\"")
    (hr : CustomTime.UnmarshalJSON parseLayout b = .ok r.LastModTime)
    (hw : ¬ markerTime.Before Time.zero = true) :
    accepts markerTime r = false ∧
      writeUpdate env fs ⟨total, pre ++ r :: suf, len, offset⟩ dir markerTime =
        writeUpdate env fs ⟨total, pre ++ suf, len, offset⟩ dir markerTime := by
  rw [UnmarshalJSON_null parseLayout b hb] at hr
  have hz : r.LastModTime = ⟨Time.zero⟩ := (Except.ok.inj hr).symm
  have ha : accepts markerTime r = false := by
    unfold accepts
    rw [hz]
    simp only [Bool.and_eq_false_iff]
    right
    simpa using hw
  refine ⟨ha, ?_⟩
  rw [writeUpdate_eq, writeUpdate_eq]
  simp only [List.filter_append, List.filter_cons, ha, Bool.false_eq_true, if_false]

/-- An instance of amended C3: against the sentinel watermark the record with a
null `lastModTime` leaves the run unchanged. -/
theorem null_lastModTime_skipped_witness :
    ("null" = "null" ∨ "null" = "\"null\"") ∧
      CustomTime.UnmarshalJSON ParseTimeLayout "null" =
        .ok (exampleWorkflow Time.zero).LastModTime ∧
      ¬ sentinel.Before Time.zero = true ∧
      accepts sentinel (exampleWorkflow Time.zero) = false ∧
      writeUpdate exampleEnv noMarker ⟨1, [] ++ exampleWorkflow Time.zero :: [], 1, 0⟩ "out"
          sentinel =
        writeUpdate exampleEnv noMarker ⟨1, [] ++ [], 1, 0⟩ "out" sentinel :=
  ⟨Or.inl rfl, rfl, by decide,
    null_lastModTime_skipped ParseTimeLayout "null" exampleEnv noMarker 1 1 0 [] []
      (exampleWorkflow Time.zero) "out" sentinel (Or.inl rfl) rfl (by decide)⟩

/-- C4, as the claim states it, fails: the accepted record of the example has a
null `createdTime` and a null `endTime`, and both are written as the date
string `0001-01-01T00:00:00Z`, not as the empty string. -/
theorem null_time_cell_counterexample :
    CustomTime.UnmarshalJSON ParseTimeLayout "null" =
        .ok (exampleWorkflow (Date 2023 7 1 0 0 0 0 0)).CreatedTime ∧
      CustomTime.UnmarshalJSON ParseTimeLayout "null" =
        .ok (exampleWorkflow (Date 2023 7 1 0 0 0 0 0)).EndTime ∧
      (writeUpdate exampleEnv noMarker ⟨1, [exampleWorkflow (Date 2023 7 1 0 0 0 0 0)], 1, 0⟩
        "out" sentinel).rows =
        [header,
          ["0000001-230701000000000-oozie-oozi-W",
            "aws-reconciler-production-123456789012-2023-07", "123456789012", "2023", "07",
            "SUCCEEDED", "0001-01-01T00:00:00Z", "2023-07-01T00:00:00Z",
            "0001-01-01T00:00:00Z"]] := by
  refine ⟨rfl, rfl, ?_⟩
  rw [writeUpdate_rows _ _ _ _ _ rfl]
  decide

/-- C4, amended: decoding `null` never fails and yields the zero time, and for
every accepted record the row written carries, for each of `createdTime`,
`lastModTime` and `endTime` that was decoded from `null`, the text
`0001-01-01T00:00:00Z` in the column of that field. -/
theorem null_time_cell (parseLayout : String → Except String Time) (b : String)
    (env : Env) (fs : FS) (jobs : Jobs) (dir : String) (markerTime : Time) (r : Workflow)
    (hb : b = "null" ∨ b = "\"null\"") (h : env.createErr = none)
    (hr : r ∈ jobs.Workflows) (ha : accepts markerTime r = true) :
    ∃ ct row, CustomTime.UnmarshalJSON parseLayout b = .ok ct ∧
      row ∈ (writeUpdate env fs jobs dir markerTime).rows ∧
      row.get? 0 = some r.Id ∧ row.get? 1 = some r.AppName ∧
      (r.CreatedTime = ct → row.get? 6 = some "0001-01-01T00:00:00Z") ∧
      (r.LastModTime = ct → row.get? 7 = some "0001-01-01T00:00:00Z") ∧
      (r.EndTime = ct → row.get? 8 = some "0001-01-01T00:00:00Z") := by
  refine ⟨⟨Time.zero⟩, rowOf r, UnmarshalJSON_null parseLayout b hb, ?_, rfl, rfl, ?_, ?_, ?_⟩
  · rw [writeUpdate_rows _ _ _ _ _ h]
    exact List.mem_cons_of_mem _ (List.mem_map.2 ⟨r, List.mem_filter.2 ⟨hr, ha⟩, rfl⟩)
  · intro e
    simp only [rowOf, e]
    rfl
  · intro e
    simp only [rowOf, e]
    rfl
  · intro e
    simp only [rowOf, e]
    rfl

/-- An instance of amended C4 at the example record. -/
theorem null_time_cell_witness :
    ("null" = "null" ∨ "null" = "\"null\"") ∧ exampleEnv.createErr = none ∧
      exampleWorkflow (Date 2023 7 1 0 0 0 0 0) ∈ [exampleWorkflow (Date 2023 7 1 0 0 0 0 0)] ∧
      accepts sentinel (exampleWorkflow (Date 2023 7 1 0 0 0 0 0)) = true ∧
      ∃ ct row, CustomTime.UnmarshalJSON ParseTimeLayout "null" = .ok ct ∧
        row ∈ (writeUpdate exampleEnv noMarker
          ⟨1, [exampleWorkflow (Date 2023 7 1 0 0 0 0 0)], 1, 0⟩ "out" sentinel).rows ∧
        ((exampleWorkflow (Date 2023 7 1 0 0 0 0 0)).CreatedTime = ct →
          row.get? 6 = some "0001-01-01T00:00:00Z") :=
  ⟨Or.inl rfl, rfl, List.mem_singleton.2 rfl, by decide, by
    obtain ⟨ct, row, a, b, -, -, c, -, -⟩ := null_time_cell ParseTimeLayout "null" exampleEnv
      noMarker ⟨1, [exampleWorkflow (Date 2023 7 1 0 0 0 0 0)], 1, 0⟩ "out" sentinel
      (exampleWorkflow (Date 2023 7 1 0 0 0 0 0)) (Or.inl rfl) rfl (List.mem_singleton.2 rfl)
      (by decide)
    exact ⟨ct, row, a, b, c⟩⟩

/-- C5, as the claim states it, fails: in this successful run the flush of the
CSV writer, and the close of the output file, come after the write of the
marker. -/
theorem flush_after_marker_counterexample :
    (writeUpdate exampleEnv noMarker ⟨1, [exampleWorkflow (Date 2023 7 1 0 0 0 0 0)], 1, 0⟩
        "out" sentinel).result = .ok ∧
      (writeUpdate exampleEnv noMarker ⟨1, [exampleWorkflow (Date 2023 7 1 0 0 0 0 0)], 1, 0⟩
        "out" sentinel).trace =
        [.create "out" "2023-08-01T12-00-00Z.csv" none,
          .writeRow header none,
          .writeRow (rowOf (exampleWorkflow (Date 2023 7 1 0 0 0 0 0))) none,
          .writeFile "out" "_marker" "2023-07-01T00:00:00Z" none,
          .flush none,
          .close] := by
  rw [writeUpdate_eq]
  decide

theorem mem_rowEvents (env : Env) (k : Nat) (ws : List Workflow) (e : Event)
    (he : e ∈ rowEvents env k ws) : ∃ record err, e = .writeRow record err := by
  induction ws generalizing k with
  | nil => simp [rowEvents] at he
  | cons w ws ih =>
    rcases List.mem_cons.1 he with rfl | he
    · exact ⟨_, _, rfl⟩
    · exact ih _ he

/-- C5, amended: in every successful call the effects are, in this order, the
creation of the output file, the `Write` of the header and of each accepted
row to the CSV writer, the write of the marker, and only then the flush of the
CSV writer and the close of the output file, which are deferred to the return
of `writeUpdate`. -/
theorem effects_order (env : Env) (fs : FS) (jobs : Jobs) (dir : String) (markerTime : Time)
    (h : (writeUpdate env fs jobs dir markerTime).result = .ok) :
    ∃ (name data : String) (writes : List Event),
      (writeUpdate env fs jobs dir markerTime).trace =
        .create dir name none :: writes ++
          [.writeFile dir "_marker" data none, .flush env.flushErr, .close] ∧
      (∀ e ∈ writes, ∃ record err, e = .writeRow record err) ∧
      writes.filterMap (fun e =>
        match e with
        | .writeRow record _ => some record
        | _ => none) = (writeUpdate env fs jobs dir markerTime).rows := by
  rw [writeUpdate_eq] at h ⊢
  cases hc : env.createErr with
  | some err => rw [hc] at h; exact Result.noConfusion h
  | none =>
    rw [hc] at h
    simp only [] at h ⊢
    cases hm : env.markerErr with
    | some p => rw [hm] at h; exact Result.noConfusion h
    | none =>
      simp only []
      refine ⟨_, _, .writeRow header (env.writeErr 1) ::
        rowEvents env 2 (jobs.Workflows.filter (accepts markerTime)), rfl, ?_, ?_⟩
      · intro e he
        rcases List.mem_cons.1 he with rfl | he
        · exact ⟨_, _, rfl⟩
        · exact mem_rowEvents _ _ _ _ he
      · simp [Run.rows, List.filterMap_append, rows_rowEvents]

/-- An instance of amended C5 at the example run. -/
theorem effects_order_witness :
    (writeUpdate exampleEnv noMarker ⟨1, [exampleWorkflow (Date 2023 7 1 0 0 0 0 0)], 1, 0⟩
        "out" sentinel).result = .ok ∧
      ∃ (name data : String) (writes : List Event),
        (writeUpdate exampleEnv noMarker ⟨1, [exampleWorkflow (Date 2023 7 1 0 0 0 0 0)], 1, 0⟩
          "out" sentinel).trace =
          .create "out" name none :: writes ++
            [.writeFile "out" "_marker" data none, .flush exampleEnv.flushErr, .close] :=
  ⟨by rw [writeUpdate_eq]; rfl, by
    obtain ⟨name, data, writes, a, -, -⟩ := effects_order exampleEnv noMarker
      ⟨1, [exampleWorkflow (Date 2023 7 1 0 0 0 0 0)], 1, 0⟩ "out" sentinel
      (by rw [writeUpdate_eq]; rfl)
    exact ⟨name, data, writes, a⟩⟩

/-- C6, as the claim states it, fails: here the write of the header, the write
of the data row and the flush all fail, yet `writeUpdate` returns no error and
the marker, absent before, is written. -/
theorem failed_writes_counterexample :
    (writeUpdate failingWritesEnv noMarker
        ⟨1, [exampleWorkflow (Date 2023 7 1 0 0 0 0 0)], 1, 0⟩ "out" sentinel).result = .ok ∧
      (writeUpdate failingWritesEnv noMarker
        ⟨1, [exampleWorkflow (Date 2023 7 1 0 0 0 0 0)], 1, 0⟩ "out" sentinel).trace =
        [.create "out" "2023-08-01T12-00-00Z.csv" none,
          .writeRow header (some "input/output error"),
          .writeRow (rowOf (exampleWorkflow (Date 2023 7 1 0 0 0 0 0)))
            (some "input/output error"),
          .writeFile "out" "_marker" "2023-07-01T00:00:00Z" none,
          .flush (some "input/output error"),
          .close] ∧
      noMarker "out" = .absent ∧
      (writeUpdate failingWritesEnv noMarker
        ⟨1, [exampleWorkflow (Date 2023 7 1 0 0 0 0 0)], 1, 0⟩ "out" sentinel).fs "out" =
        .content "2023-07-01T00:00:00Z" := by
  rw [writeUpdate_eq]
  decide

/-- C6, amended: compiling the fixed pattern cannot fail; if creating the
output file fails, `writeUpdate` returns an error, leaves the file system as
it was and makes no attempt to write the marker.  The errors of the writes of
the header and of the rows and of the flush are not looked at: neither the
result nor the marker left behind depends on them. -/
theorem early_failure_keeps_marker (env : Env) (fs : FS) (jobs : Jobs) (dir : String)
    (markerTime : Time) :
    (∃ re, regexpCompile APPNAME_REG = .ok re) ∧
    (∀ err, env.createErr = some err →
      (writeUpdate env fs jobs dir markerTime).result =
          .error ("cannot create output file:" ++ err) ∧
        (writeUpdate env fs jobs dir markerTime).fs = fs ∧
        ∀ name data e,
          Event.writeFile dir name data e ∉ (writeUpdate env fs jobs dir markerTime).trace) ∧
    (∀ (writeErr : Nat → Option String) (flushErr : Option String),
      (writeUpdate { env with writeErr := writeErr, flushErr := flushErr } fs jobs dir
          markerTime).result = (writeUpdate env fs jobs dir markerTime).result ∧
        (writeUpdate { env with writeErr := writeErr, flushErr := flushErr } fs jobs dir
          markerTime).fs = (writeUpdate env fs jobs dir markerTime).fs) := by
  refine ⟨⟨_, regexpCompile_APPNAME_REG⟩, ?_, ?_⟩
  · intro err h
    rw [writeUpdate_eq, h]
    simp
  · intro writeErr flushErr
    rw [writeUpdate_eq, writeUpdate_eq]
    cases env.createErr with
    | some err => exact ⟨rfl, rfl⟩
    | none =>
      cases env.markerErr with
      | some p => exact ⟨rfl, rfl⟩
      | none => exact ⟨rfl, rfl⟩

/-- An instance of amended C6: the output file cannot be created, and the
marker of the directory stays absent. -/
theorem early_failure_keeps_marker_witness :
    noCreateEnv.createErr = some "permission denied" ∧
      (writeUpdate noCreateEnv noMarker ⟨1, [exampleWorkflow (Date 2023 7 1 0 0 0 0 0)], 1, 0⟩
          "out" sentinel).result = .error ("cannot create output file:" ++ "permission denied") ∧
      (writeUpdate noCreateEnv noMarker ⟨1, [exampleWorkflow (Date 2023 7 1 0 0 0 0 0)], 1, 0⟩
          "out" sentinel).fs = noMarker :=
  ⟨rfl,
    ((early_failure_keeps_marker noCreateEnv noMarker
      ⟨1, [exampleWorkflow (Date 2023 7 1 0 0 0 0 0)], 1, 0⟩ "out" sentinel).2.1
      "permission denied" rfl).1,
    ((early_failure_keeps_marker noCreateEnv noMarker
      ⟨1, [exampleWorkflow (Date 2023 7 1 0 0 0 0 0)], 1, 0⟩ "out" sentinel).2.1
      "permission denied" rfl).2.1⟩

theorem writeUpdate_ok (env : Env) (fs : FS) (jobs : Jobs) (dir : String) (markerTime : Time)
    (h : (writeUpdate env fs jobs dir markerTime).result = .ok) :
    env.createErr = none ∧ env.markerErr = none ∧
      (writeUpdate env fs jobs dir markerTime).fs =
        Function.update fs dir (.content (latest markerTime
          ((jobs.Workflows.filter (accepts markerTime)).map
            fun w => w.LastModTime.Time)).FormatRFC3339) := by
  rw [writeUpdate_eq] at h ⊢
  cases hc : env.createErr with
  | some err => rw [hc] at h; exact Result.noConfusion h
  | none =>
    rw [hc] at h
    simp only [] at h ⊢
    cases hm : env.markerErr with
    | some p => rw [hm] at h; exact Result.noConfusion h
    | none => simp

/-- The marker left by a successful pass, read back: the latest of the
watermark and the accepted `lastModTime`s, cut to whole seconds. -/
theorem readMarker_after (env : Env) (fs : FS) (jobs : Jobs) (dir : String) (markerTime p : Time)
    (h : (writeUpdate env fs jobs dir markerTime).result = .ok)
    (hp : readMarker (writeUpdate env fs jobs dir markerTime).fs dir = .ok p) :
    p = ⟨(latest markerTime ((jobs.Workflows.filter (accepts markerTime)).map
        fun w => w.LastModTime.Time)).sec, 0,
      (latest markerTime ((jobs.Workflows.filter (accepts markerTime)).map
        fun w => w.LastModTime.Time)).zone⟩ := by
  obtain ⟨-, -, hfs⟩ := writeUpdate_ok env fs jobs dir markerTime h
  rw [hfs] at hp
  unfold readMarker at hp
  simp only [Function.update_same] at hp
  exact Parse_Format _ _ hp

/-- C8, as the claim states it, fails: the record is last modified at
`2023-07-01T00:00:00.5Z`, as decoded from `Sat, 01 Jul 2023 00:00:00.5 GMT`
(`time.Parse` reads a fraction of a second after the seconds whatever the
layout).  The first pass writes it and leaves the marker
`2023-07-01T00:00:00Z`; the second pass, run on the same record set with the
watermark that `readMarker` reads back, writes the record again. -/
theorem second_pass_counterexample :
    CustomTime.UnmarshalJSON ParseTimeLayout "\"Sat, 01 Jul 2023 00:00:00.5 GMT\"" =
        .ok (exampleWorkflow (Date 2023 7 1 0 0 0 500000000 0)).LastModTime ∧
      (writeUpdate exampleEnv noMarker halfSecondJobs "out" sentinel).result = .ok ∧
      (writeUpdate exampleEnv noMarker halfSecondJobs "out" sentinel).rows =
        [header, rowOf (exampleWorkflow (Date 2023 7 1 0 0 0 500000000 0))] ∧
      readMarker (writeUpdate exampleEnv noMarker halfSecondJobs "out" sentinel).fs "out" =
        .ok (Date 2023 7 1 0 0 0 0 0) ∧
      (writeUpdate exampleEnv (writeUpdate exampleEnv noMarker halfSecondJobs "out" sentinel).fs
        halfSecondJobs "out" (Date 2023 7 1 0 0 0 0 0)).rows =
        [header, rowOf (exampleWorkflow (Date 2023 7 1 0 0 0 500000000 0))] := by
  refine ⟨rfl, ?_, ?_, ?_, ?_⟩
  · rw [writeUpdate_eq]; rfl
  · rw [writeUpdate_rows _ _ _ _ _ rfl]; decide
  · rw [writeUpdate_eq]; rfl
  · rw [writeUpdate_rows _ _ _ _ _ rfl]; decide

/-- C8, amended: let a first pass complete, and let a second pass run on the
same record set with the watermark that `readMarker` reads back from the
marker the first pass left.  If the `lastModTime` of every record with a
well-formed name has no fraction of a second, the second pass accepts no
record and writes the header only. -/
theorem second_pass_selects_nothing (env1 env2 : Env) (fs : FS) (jobs : Jobs) (dir : String)
    (markerTime w2 : Time)
    (h1 : (writeUpdate env1 fs jobs dir markerTime).result = .ok)
    (hs : ∀ w ∈ jobs.Workflows, matchesPattern w.AppName = true → w.LastModTime.Time.nsec = 0)
    (h2 : readMarker (writeUpdate env1 fs jobs dir markerTime).fs dir = .ok w2)
    (h3 : env2.createErr = none) :
    (∀ w ∈ jobs.Workflows, accepts w2 w = false) ∧
      (writeUpdate env2 (writeUpdate env1 fs jobs dir markerTime).fs jobs dir w2).rows =
        [header] := by
  have hw2 := readMarker_after env1 fs jobs dir markerTime w2 h1 h2
  have hall : ∀ w ∈ jobs.Workflows, accepts w2 w = false := by
    intro w hw
    unfold accepts
    by_cases hm : matchesPattern w.AppName = true
    · have hn := hs w hw hm
      have hle : ¬ (latest markerTime ((jobs.Workflows.filter (accepts markerTime)).map
          fun w => w.LastModTime.Time)).Before w.LastModTime.Time = true := by
        by_cases ha : accepts markerTime w = true
        · exact latest_ge_mem _ _ _ (List.mem_map.2 ⟨w, List.mem_filter.2 ⟨hw, ha⟩, rfl⟩)
        · have hb : ¬ markerTime.Before w.LastModTime.Time = true := by
            intro hb
            apply ha
            unfold accepts
            rw [hm, hb]
            rfl
          exact not_Before_trans _ _ _ hb (latest_ge_init _ _)
      have : ¬ w2.Before w.LastModTime.Time = true := by
        rw [hw2]
        rw [Before_iff] at hle ⊢
        simp only []
        omega
      rw [hm]
      simpa using this
    · simp only [Bool.not_eq_true] at hm
      rw [hm]
      rfl
  refine ⟨hall, ?_⟩
  rw [writeUpdate_rows _ _ _ _ _ h3]
  have : jobs.Workflows.filter (accepts w2) = [] := by
    rw [List.filter_eq_nil_iff]
    intro w hw
    rw [hall w hw]
    exact Bool.false_ne_true
  rw [this]
  rfl

/-- An instance of amended C8: the record is last modified at a whole second,
and the second pass writes the header only. -/
theorem second_pass_selects_nothing_witness :
    (writeUpdate exampleEnv noMarker ⟨1, [exampleWorkflow (Date 2023 7 1 0 0 0 0 0)], 1, 0⟩ "out"
        sentinel).result = .ok ∧
      (∀ w ∈ [exampleWorkflow (Date 2023 7 1 0 0 0 0 0)],
        matchesPattern w.AppName = true → w.LastModTime.Time.nsec = 0) ∧
      readMarker (writeUpdate exampleEnv noMarker
        ⟨1, [exampleWorkflow (Date 2023 7 1 0 0 0 0 0)], 1, 0⟩ "out" sentinel).fs "out" =
        .ok (Date 2023 7 1 0 0 0 0 0) ∧
      exampleEnv.createErr = none ∧
      (writeUpdate exampleEnv (writeUpdate exampleEnv noMarker
          ⟨1, [exampleWorkflow (Date 2023 7 1 0 0 0 0 0)], 1, 0⟩ "out" sentinel).fs
        ⟨1, [exampleWorkflow (Date 2023 7 1 0 0 0 0 0)], 1, 0⟩ "out"
        (Date 2023 7 1 0 0 0 0 0)).rows = [header] :=
  ⟨by rw [writeUpdate_eq]; rfl, by decide, by rw [writeUpdate_eq]; rfl, rfl,
    (second_pass_selects_nothing exampleEnv exampleEnv noMarker
      ⟨1, [exampleWorkflow (Date 2023 7 1 0 0 0 0 0)], 1, 0⟩ "out" sentinel
      (Date 2023 7 1 0 0 0 0 0) (by rw [writeUpdate_eq]; rfl) (by decide)
      (by rw [writeUpdate_eq]; rfl) rfl).2⟩

/-- C9, as the claim states it, fails: the marker holds
`2000-01-01T00:00:00.5Z`, nothing is accepted, and the successful pass leaves
the marker `2000-01-01T00:00:00Z`, half a second older than the watermark it
read. -/
theorem monotone_watermark_counterexample :
    readMarker fractionMarker "out" = .ok ⟨63082281600, 500000000, 0⟩ ∧
      ∃ run, syncPass exampleEnv fractionMarker ⟨0, [], 0, 0⟩ "out" = some run ∧
        run.result = .ok ∧
        readMarker run.fs "out" = .ok ⟨63082281600, 0, 0⟩ ∧
        Time.Before ⟨63082281600, 0, 0⟩ ⟨63082281600, 500000000, 0⟩ = true := by
  refine ⟨rfl, _, rfl, ?_, ?_, rfl⟩
  · rw [writeUpdate_eq]; rfl
  · rw [writeUpdate_eq]; rfl

theorem pass_step (env : Env) (fs : FS) (jobs : Jobs) (dir : String) (w p : Time)
    (h : (writeUpdate env fs jobs dir w).result = .ok)
    (hp : readMarker (writeUpdate env fs jobs dir w).fs dir = .ok p) :
    p.nsec = 0 ∧ ¬ Time.Before p ⟨w.sec, 0, w.zone⟩ = true ∧
      (w.nsec = 0 → ¬ p.Before w = true) := by
  have e := readMarker_after env fs jobs dir w p h hp
  have hge := latest_ge_init w ((jobs.Workflows.filter (accepts w)).map
    fun w => w.LastModTime.Time)
  rw [Before_iff] at hge
  rw [e]
  refine ⟨rfl, ?_, ?_⟩
  · rw [Before_iff]; simp only []; omega
  · intro hn
    rw [Before_iff]; simp only []; omega

theorem runPasses_cons (dir : String) (fs : FS) (env : Env) (jobs : Jobs)
    (rest : List (Env × Jobs)) (states : List FS)
    (h : runPasses dir fs ((env, jobs) :: rest) = some states) :
    ∃ w tail, readMarker fs dir = .ok w ∧ (writeUpdate env fs jobs dir w).result = .ok ∧
      runPasses dir (writeUpdate env fs jobs dir w).fs rest = some tail ∧
      states = (writeUpdate env fs jobs dir w).fs :: tail := by
  unfold runPasses syncPass at h
  cases hr : readMarker fs dir with
  | error e => rw [hr] at h; simp at h
  | ok w =>
    rw [hr] at h
    simp only [] at h
    by_cases hok : (writeUpdate env fs jobs dir w).result = .ok
    · rw [if_pos hok] at h
      cases ht : runPasses dir (writeUpdate env fs jobs dir w).fs rest with
      | none => rw [ht] at h; simp at h
      | some tail =>
        rw [ht] at h
        simp only [Option.some.injEq] at h
        exact ⟨w, tail, rfl, hok, ht, h.symm⟩
    · rw [if_neg hok] at h
      simp at h

/-- C9, amended: in every sequence of successful passes over arbitrary record
sets, each loading the watermark with `readMarker` and persisting it with
`writeUpdate`, the watermark persisted by a pass is not older than the
watermark persisted by the pass before it, which is the one it read.  The
first pass persists a watermark that is not older than the whole seconds of
the watermark it read; when that watermark has no fraction of a second (as the
sentinel, or any marker written by `writeUpdate`), it is not older than the
watermark itself. -/
theorem monotone_watermark (dir : String) (passes : List (Env × Jobs)) (fs : FS)
    (states : List FS) (h : runPasses dir fs passes = some states) :
    List.Chain' (fun a b => ∀ p1 p2, readMarker a dir = .ok p1 → readMarker b dir = .ok p2 →
      ¬ p2.Before p1 = true) states ∧
    List.Chain' (fun a b => ∀ w p, readMarker a dir = .ok w → readMarker b dir = .ok p →
      ¬ Time.Before p ⟨w.sec, 0, w.zone⟩ = true) (fs :: states) ∧
    ((∀ w, readMarker fs dir = .ok w → w.nsec = 0) →
      List.Chain' (fun a b => ∀ p1 p2, readMarker a dir = .ok p1 → readMarker b dir = .ok p2 →
        ¬ p2.Before p1 = true) (fs :: states)) := by
  induction passes generalizing fs states with
  | nil =>
    simp only [runPasses, Option.some.injEq] at h
    subst h
    exact ⟨List.chain'_nil, List.chain'_singleton _, fun _ => List.chain'_singleton _⟩
  | cons pass rest ih =>
    obtain ⟨env, jobs⟩ := pass
    obtain ⟨w, tail, hr, hok, ht, rfl⟩ := runPasses_cons dir fs env jobs rest states h
    obtain ⟨ihA, ihB, ihC⟩ := ih _ tail ht
    have hA := ihC (fun p hp => (pass_step env fs jobs dir w p hok hp).1)
    refine ⟨hA, ?_, ?_⟩
    · refine List.Chain'.cons ?_ ihB
      intro w1 p hw1 hp
      rw [hr] at hw1
      obtain rfl := Except.ok.inj hw1
      exact (pass_step env fs jobs dir _ p hok hp).2.1
    · intro hn
      refine List.Chain'.cons ?_ hA
      intro w1 p hw1 hp
      rw [hr] at hw1
      obtain rfl := Except.ok.inj hw1
      exact (pass_step env fs jobs dir _ p hok hp).2.2 (hn _ hr)

/-- An instance of amended C9: two passes from a directory without marker. -/
theorem monotone_watermark_witness :
    ∃ states, runPasses "out" noMarker
        [(exampleEnv, ⟨1, [exampleWorkflow (Date 2023 7 1 0 0 0 0 0)], 1, 0⟩),
          (exampleEnv, ⟨1, [exampleWorkflow (Date 2023 7 2 0 0 0 0 0)], 1, 0⟩)] = some states ∧
      states.map (fun s => s "out") =
        [.content "2023-07-01T00:00:00Z", .content "2023-07-02T00:00:00Z"] ∧
      List.Chain' (fun a b => ∀ p1 p2, readMarker a "out" = .ok p1 →
        readMarker b "out" = .ok p2 → ¬ p2.Before p1 = true) states := by
  have h : runPasses "out" noMarker
      [(exampleEnv, ⟨1, [exampleWorkflow (Date 2023 7 1 0 0 0 0 0)], 1, 0⟩),
        (exampleEnv, ⟨1, [exampleWorkflow (Date 2023 7 2 0 0 0 0 0)], 1, 0⟩)] =
      some [(writeUpdate exampleEnv noMarker
          ⟨1, [exampleWorkflow (Date 2023 7 1 0 0 0 0 0)], 1, 0⟩ "out" sentinel).fs,
        (writeUpdate exampleEnv (writeUpdate exampleEnv noMarker
          ⟨1, [exampleWorkflow (Date 2023 7 1 0 0 0 0 0)], 1, 0⟩ "out" sentinel).fs
          ⟨1, [exampleWorkflow (Date 2023 7 2 0 0 0 0 0)], 1, 0⟩ "out"
          (Date 2023 7 1 0 0 0 0 0)).fs] := by
    rfl
  exact ⟨_, h, by decide, (monotone_watermark "out" _ noMarker _ h).1⟩

end OozieDump
